import Mathlib

set_option maxRecDepth 8192

/-!
Verification of the CSVTable engine (src/CSVTable.hpp) against its specification.

The embedding models:
* `CellValue` (a std::variant of std::string, int, double, bool, uint64_t) as `CSV.Cell`;
  the `double` variant is modelled as an exact rational number `ℚ`.  Wherever binary
  floating-point rounding or undefined behaviour of the C++ code matters, the modelling
  choice is stated in the doc comment of the definition concerned.
* the numeric conversions std::stoi / std::stoull / std::stod as explicit
  character-list scanners returning the parsed value and the number of characters
  consumed, with `none` standing for the C++ exception;
* the table itself as a structure of column names, a name-to-index mapping
  (a function `String → Option Nat`, mirroring the std::map) and row-major cells.
-/

deriving instance DecidableEq for Except

namespace CSV

/-- Dynamically typed cell, mirroring
    using CellValue = std::variant of std::string, int, double, bool, uint64_t
    in CSVTable.hpp.  The double alternative is modelled as an exact rational. -/
inductive Cell where
| text (s : String)
| i32 (n : Int)
| f64 (q : ℚ)
| bool (b : Bool)
| u64 (n : Nat)
deriving DecidableEq

/-- Numeric value of a most-significant-first list of decimal digit characters,
    as accumulated by the C scanners. -/
def digitsVal (cs : List Char) : Nat :=
  cs.foldl (fun a c => a * 10 + (c.toNat - 48)) 0

/-- Decimal digit character for a value below ten (values ten and above do not occur). -/
def digitChar (n : Nat) : Char :=
  match n with
  | 0 => '0' | 1 => '1' | 2 => '2' | 3 => '3' | 4 => '4'
  | 5 => '5' | 6 => '6' | 7 => '7' | 8 => '8' | _ => '9'

/-- Digit-accumulating loop of the decimal printer, structurally recursive on a fuel
    argument so that it evaluates inside the kernel; the fuel passed by natDigits is
    always sufficient. -/
def natDigitsAux : Nat → Nat → List Char → List Char
| 0, n, acc => digitChar n :: acc
| fuel + 1, n, acc =>
  if n < 10 then digitChar n :: acc
  else natDigitsAux fuel (n / 10) (digitChar (n % 10) :: acc)

/-- Most-significant-first decimal digits of a natural number (like std::to_string). -/
def natDigits (n : Nat) : List Char := natDigitsAux n n []

/-- Model of std::to_string on an unsigned value. -/
def natRepr (n : Nat) : String := String.mk (natDigits n)

/-- Model of std::to_string on a signed value. -/
def intRepr (v : Int) : String :=
  if v < 0 then String.mk ('-' :: natDigits v.natAbs) else natRepr v.toNat

/-- Whitespace in the sense of isspace, skipped by the strto* scanners. -/
def isSpaceC (c : Char) : Bool :=
  c = ' ' ∨ c = '\t' ∨ c = '\n' ∨ c = '\r' ∨ c.toNat = 11 ∨ c.toNat = 12

/-- Skip leading whitespace; return the count skipped and the remainder. -/
def skipWs : List Char → Nat × List Char
| [] => (0, [])
| c :: cs => if isSpaceC c then let p := skipWs cs; (p.1 + 1, p.2) else (0, c :: cs)

/-- Optional sign accepted by the strto* scanners: sign, characters consumed, remainder. -/
def takeSign : List Char → Int × Nat × List Char
| '-' :: cs => (-1, 1, cs)
| '+' :: cs => (1, 1, cs)
| cs => (1, 0, cs)

/-- Longest leading run of decimal digits, and the remainder. -/
def takeDigits : List Char → List Char × List Char
| [] => ([], [])
| c :: cs =>
  if c.isDigit then let p := takeDigits cs; (c :: p.1, p.2) else ([], c :: cs)

/-- INT_MIN for the 32-bit int used by the C++ code. -/
def i32min : Int := -(2 ^ 31)

/-- INT_MAX for the 32-bit int used by the C++ code. -/
def i32max : Int := 2 ^ 31 - 1

/-- Modulus of uint64_t. -/
def u64mod : Nat := 2 ^ 64

/-- Model of std::stoi(str, pos) in base 10: skip whitespace, optional sign, decimal
    digits.  Returns the value and the number of characters consumed; `none` models the
    C++ exception (std::invalid_argument when no digits were found, std::out_of_range
    when the value does not fit in int). -/
def stoi (s : String) : Option (Int × Nat) :=
  let pw := skipWs s.data
  let ps := takeSign pw.2
  let pd := takeDigits ps.2.2
  if pd.1.isEmpty then none
  else
    let v : Int := ps.1 * (digitsVal pd.1 : Int)
    if v < i32min ∨ i32max < v then none
    else some (v, pw.1 + ps.2.1 + pd.1.length)

/-- Model of std::stoull(str, pos) in base 10.  strtoull accepts a leading minus sign
    and negates the parsed magnitude modulo 2^64; it reports std::out_of_range only when
    the magnitude itself exceeds ULLONG_MAX. -/
def stoull (s : String) : Option (Nat × Nat) :=
  let pw := skipWs s.data
  let ps := takeSign pw.2
  let pd := takeDigits ps.2.2
  if pd.1.isEmpty then none
  else
    let m := digitsVal pd.1
    if u64mod ≤ m then none
    else some (if ps.1 = -1 then (u64mod - m) % u64mod else m, pw.1 + ps.2.1 + pd.1.length)

/-- Rational from an integer; stated through mkRat so that it evaluates inside the
    kernel (the Mathlib arithmetic instances on ℚ do not). -/
def qofInt (n : Int) : ℚ := mkRat n 1

/-- Rational from a natural number. -/
def qofNat (n : Nat) : ℚ := mkRat n 1

/-- Kernel-evaluable product of rationals (provably equal to multiplication on ℚ). -/
def qmul (a b : ℚ) : ℚ := Rat.divInt (a.num * b.num) ((a.den : Int) * (b.den : Int))

/-- Kernel-evaluable sum of rationals (provably equal to addition on ℚ). -/
def qadd (a b : ℚ) : ℚ :=
  Rat.divInt (a.num * (b.den : Int) + b.num * (a.den : Int)) ((a.den : Int) * (b.den : Int))

/-- Kernel-evaluable difference of rationals. -/
def qsub (a b : ℚ) : ℚ := qadd a (Rat.neg b)

/-- Kernel-evaluable strict order test on rationals. -/
def qlt (a b : ℚ) : Bool := Rat.blt a b

/-- Kernel-evaluable absolute value on rationals. -/
def qabs (q : ℚ) : ℚ := if qlt q (mkRat 0 1) then Rat.neg q else q

/-- Model of std::stod(str, pos): skip whitespace, optional sign, decimal digits with an
    optional fractional part, optional decimal exponent.  The parsed value is the exact
    rational sign * (intDigits.fracDigits) * 10^exponent, assembled here as a single
    integer fraction; it is kept exact rather than rounded to a binary double.  The
    hexadecimal, infinity and NaN spellings accepted by strtod are not modelled, and
    the overflow check approximates DBL_MAX by 2^1024 (std::stod throws
    std::out_of_range on overflow).  No claim settled below depends on these corners. -/
def stod (s : String) : Option (ℚ × Nat) :=
  let pw := skipWs s.data
  let ps := takeSign pw.2
  let pd1 := takeDigits ps.2.2
  let frac :=
    match pd1.2 with
    | '.' :: cs => let p := takeDigits cs; (p.1, 1, p.2)
    | r => (([] : List Char), 0, r)
  if pd1.1.isEmpty ∧ frac.1.isEmpty then none
  else
    let expo :=
      match frac.2.2 with
      | c :: cs =>
        if c = 'e' ∨ c = 'E' then
          let pes := takeSign cs
          let ped := takeDigits pes.2.2
          if ped.1.isEmpty then ((0 : Int), 0)
          else (pes.1 * (digitsVal ped.1 : Int), 1 + pes.2.1 + ped.1.length)
        else ((0 : Int), 0)
      | [] => ((0 : Int), 0)
    let mantNum : Nat := digitsVal pd1.1 * 10 ^ frac.1.length + digitsVal frac.1
    let num : Int := ps.1 * (mantNum : Int) * ((if 0 ≤ expo.1 then 10 ^ expo.1.toNat else 1 : Nat) : Int)
    let den : Int := ((10 ^ frac.1.length * (if 0 ≤ expo.1 then 1 else 10 ^ (-expo.1).toNat) : Nat) : Int)
    let v : ℚ := Rat.divInt num den
    if qlt (qofInt ((2 ^ 1024 : Nat) : Int)) (qabs v) then none
    else some (v, pw.1 + ps.2.1 + pd1.1.length + frac.2.1 + frac.1.length + expo.2)

/-- Missing-value sentinel test used throughout CSVTable.hpp: the empty string and the
    strings NA, NaN and the hash-N-slash-A marker. -/
def isMissing (s : String) : Bool :=
  s = "" ∨ s = "NA" ∨ s = "NaN" ∨ s = "#N/A"

/-- Third and fourth stages of CSVTable::parse_cell: floating-point attempt, else the
    original text. -/
def parse_cellF64 (s : String) : Cell :=
  match stod s with
  | some (q, pos) => if pos = s.length then .f64 q else .text s
  | none => .text s

/-- Second stage of CSVTable::parse_cell: unsigned 64-bit attempt, falling through to
    the floating-point attempt. -/
def parse_cellU64 (s : String) : Cell :=
  match stoull s with
  | some (u, pos) => if pos = s.length then .u64 u else parse_cellF64 s
  | none => parse_cellF64 s

/-- Embeds CSVTable::parse_cell (CSVTable.hpp lines 171-213): missing sentinels become
    empty Text, literal true/false become Bool, then stoi, stoull, stod are tried in
    order, each accepted only when it consumed the entire string, else Text. -/
def parse_cell (s : String) : Cell :=
  if s = "" ∨ s = "NA" ∨ s = "NaN" ∨ s = "#N/A" then .text ""
  else if s = "true" then .bool true
  else if s = "false" then .bool false
  else
    match stoi s with
    | some (v, pos) => if pos = s.length then .i32 v else parse_cellU64 s
    | none => parse_cellU64 s

/-- Truncation of a rational toward zero, as Int.div of numerator by denominator. -/
def ratTrunc (q : ℚ) : Int := Int.tdiv q.num (q.den : Int)

/-- Model of static_cast from double to int as compiled on x86-64 (cvttsd2si):
    truncation toward zero; conversion of a value outside int range is undefined
    behaviour in C++ and yields INT_MIN on this target. -/
def doubleToI32x86 (q : ℚ) : Int :=
  let t := ratTrunc q
  if t < i32min ∨ i32max < t then i32min else t

/-- Model of static_cast from double to uint64_t: truncation toward zero; conversion of
    a negative or too-large value is undefined behaviour in C++ and is modelled as 0
    here (no settled claim exercises that corner). -/
def doubleToU64 (q : ℚ) : Nat :=
  let t := ratTrunc q
  if t < 0 ∨ (u64mod : Int) ≤ t then 0 else t.toNat

/-- Nearest integer to a rational with ties to even, the rounding applied by the
    fixed-precision ostream output. -/
def roundHalfEven (x : ℚ) : Int :=
  let f : Int := x.floor
  let r : ℚ := qsub x (qofInt f)
  if qlt r (mkRat 1 2) then f
  else if qlt (mkRat 1 2) r then f + 1
  else if f % 2 = 0 then f else f + 1

/-- Left-pad a digit list with zeros to width ten. -/
def padZeros10 (ds : List Char) : List Char :=
  List.replicate (10 - ds.length) '0' ++ ds

/-- Model of streaming a double with std::fixed and std::setprecision(10): sign, integer
    part, a point, and exactly ten fractional digits, the value rounded to the nearest
    multiple of 10^-10 (ties to even). -/
def fixed10 (q : ℚ) : String :=
  let n : Nat := (roundHalfEven (qmul (qabs q) (qofNat (10 ^ 10)))).toNat
  String.mk ((if qlt q (mkRat 0 1) then ['-'] else []) ++
    natDigits (n / 10 ^ 10) ++ '.' :: padZeros10 (natDigits (n % 10 ^ 10)))

/-- Embeds CSVTable::cell_to_string (CSVTable.hpp lines 140-164).  Text verbatim;
    int and uint64_t via std::to_string; bool as true/false; double: when the value
    equals its floor the code returns std::to_string of static_cast to int (the x86
    semantics of that cast are modelled in doubleToI32x86), otherwise fixed-point
    output with ten fractional digits. -/
def cell_to_string : Cell → String
| .text s => s
| .i32 n => intRepr n
| .f64 q => if q.den = 1 then intRepr (doubleToI32x86 q) else fixed10 q
| .bool b => if b then "true" else "false"
| .u64 n => natRepr n

/-- Embeds convert_cell with T = int: identity on the int alternative; on text,
    reject missing sentinels, then std::stoi which must consume the entire string;
    every other alternative is a type mismatch. -/
def convert_cell_int : Cell → Except String Int
| .i32 n => .ok n
| .text s =>
  if isMissing s then .error "Cannot convert empty or NA string to type T"
  else
    match stoi s with
    | none => .error "stoi failed"
    | some (v, pos) =>
      if pos = s.length then .ok v else .error "stoi did not consume entire string"
| _ => .error "Type mismatch: Cannot convert CellValue to the requested type"

/-- Embeds convert_cell with T = double: identity on the double alternative; on text,
    reject missing sentinels then std::stod with no consumed-length check; widening
    from int and uint64_t; bool is a type mismatch. -/
def convert_cell_f64 : Cell → Except String ℚ
| .f64 q => .ok q
| .text s =>
  if isMissing s then .error "Cannot convert empty or NA string to type T"
  else
    match stod s with
    | none => .error "stod failed"
    | some (q, _) => .ok q
| .i32 n => .ok (qofInt n)
| .u64 n => .ok (qofNat n)
| .bool _ => .error "Type mismatch: Cannot convert CellValue to the requested type"

/-- Embeds convert_cell with T = uint64_t: identity on the uint64_t alternative; on
    text, reject missing sentinels then std::stoull with no consumed-length check;
    conversion from int (modular) and from double (truncating); bool is a mismatch. -/
def convert_cell_u64 : Cell → Except String Nat
| .u64 n => .ok n
| .text s =>
  if isMissing s then .error "Cannot convert empty or NA string to type T"
  else
    match stoull s with
    | none => .error "stoull failed"
    | some (u, _) => .ok u
| .i32 n => .ok (Int.emod n (u64mod : Int)).toNat
| .f64 q => .ok (doubleToU64 q)
| .bool _ => .error "Type mismatch: Cannot convert CellValue to the requested type"

/-- Embeds convert_cell with T = bool: identity on the bool alternative; on text,
    reject missing sentinels then accept the four literals; nonzero test from int and
    uint64_t; double is a type mismatch. -/
def convert_cell_bool : Cell → Except String Bool
| .bool b => .ok b
| .text s =>
  if isMissing s then .error "Cannot convert empty or NA string to type T"
  else if s = "true" then .ok true
  else if s = "false" then .ok false
  else if s = "1" then .ok true
  else if s = "0" then .ok false
  else .error "Invalid boolean string"
| .i32 n => .ok (n != 0)
| .u64 n => .ok (n != 0)
| .f64 _ => .error "Type mismatch: Cannot convert CellValue to the requested type"

/-- Embeds convert_cell with T = std::string: identity on the string alternative,
    type mismatch on every other alternative. -/
def convert_cell_string : Cell → Except String String
| .text s => .ok s
| _ => .error "Type mismatch: Cannot convert CellValue to the requested type"


/-- Quote character (ASCII 34), written via its code point. -/
def quoteC : Char := Char.ofNat 34

/-- Split a character list at commas, as std::views::split does in read_file:
    an empty input yields one empty field, and every comma starts a new field. -/
def splitCommaCL : List Char → List Char → List String
| [], acc => [String.mk acc.reverse]
| c :: cs, acc =>
  if c == ',' then String.mk acc.reverse :: splitCommaCL cs []
  else splitCommaCL cs (c :: acc)

/-- Comma split of a line. -/
def splitComma (s : String) : List String := splitCommaCL s.data []

/-- Surrounding-quote stripping applied to each field by read_file: when the field is
    nonempty and both its first and last character are a double quote, the first and
    last characters are removed (for the one-character field consisting of a single
    quote, both tests see the same character and the result is empty, matching the
    substr arithmetic of the C++ code). -/
def stripQuotes (s : String) : String :=
  match s.data with
  | [] => s
  | c :: cs =>
    if c == quoteC && ((c :: cs).getLast? == some quoteC) then String.mk cs.dropLast
    else s

/-- The table: column names, the name-to-index mapping of the std::map (modelled as a
    function so that operator-bracket insertion is pointwise update), and row-major
    cells.  Mirrors the three private members of CSVTable. -/
structure Table where
  col_names : List String
  col_map : String → Option Nat
  rows : List (List Cell)

/-- The canonical mapping sending each column name to the index of its first occurrence
    in the name sequence (and no other entries); the invariant claims assert col_map
    equals this. -/
def canonMap : List String → String → Option Nat
| [], _ => none
| c :: cs, n => if c = n then some 0 else (canonMap cs n).map (fun i => i + 1)

/-- A default-constructed CSVTable. -/
def emptyTable : Table := { col_names := [], col_map := canonMap [], rows := [] }

/-- Convenience constructor for concrete tables whose mapping is canonical. -/
def mkTable (names : List String) (rows : List (List Cell)) : Table :=
  { col_names := names, col_map := canonMap names, rows := rows }

/-- std::map operator-bracket insertion (overwrites an existing entry). -/
def mapInsert (m : String → Option Nat) (k : String) (v : Nat) : String → Option Nat :=
  fun n => if n = k then some v else m n

/-- std::map erase of one key. -/
def mapErase (m : String → Option Nat) (k : String) : String → Option Nat :=
  fun n => if n = k then none else m n

/-- The header-indexing loop of read_file: col_map of names at successive indices,
    later entries overwriting earlier ones exactly as operator-bracket does. -/
def buildMapFrom (m : String → Option Nat) : List String → Nat → (String → Option Nat)
| [], _ => m
| c :: cs, i => buildMapFrom (mapInsert m c i) cs (i + 1)

/-- Fields of one line: comma split then quote stripping. -/
def parseLineFields (line : String) : List String := (splitComma line).map stripQuotes

/-- Embeds CSVTable::read_file (CSVTable.hpp lines 606-677), with the file presented as
    its list of lines.  An empty file is an error; the first line is the header (split
    and quote-stripped); an empty table adopts the header and indexes it, a non-empty
    table requires the header to equal its column names; every further line is split,
    quote-stripped, parsed cell-wise through parse_cell, padded on the right with empty
    Text up to the column count (note: never truncated), and appended. -/
def read_file (lines : List String) (t : Table) : Except String Table :=
  match lines with
  | [] => .error "Empty file or missing header"
  | header :: rest =>
    let new_col_names := parseLineFields header
    let init : Except String Table :=
      if t.col_names.isEmpty then
        .ok { t with col_names := new_col_names,
                     col_map := buildMapFrom t.col_map new_col_names 0 }
      else if new_col_names = t.col_names then .ok t
      else .error "Column headers do not match existing table"
    match init with
    | .error e => .error e
    | .ok t1 =>
      .ok { t1 with rows := t1.rows ++ rest.map (fun line =>
        let row := (splitComma line).map (fun f => parse_cell (stripQuotes f))
        row ++ List.replicate (t1.col_names.length - row.length) (.text "")) }

/-- Embeds CSVTable::append_row (lines 877-885): pad with empty Text up to the column
    count, then resize to the column count (which truncates a longer value list). -/
def append_row (t : Table) (values : List Cell) : Table :=
  let padded := values ++ List.replicate (t.col_names.length - values.length) (.text "")
  { t with rows := t.rows ++ [padded.take t.col_names.length] }

/-- Embeds CSVTable::add_column: fails when the name is present; otherwise records the
    new index in the map, appends the name, and appends the default to every row. -/
def add_column (t : Table) (name : String) (dflt : Cell) : Except String Table :=
  if (t.col_map name).isSome then .error "Column already exists"
  else .ok { col_names := t.col_names ++ [name],
             col_map := mapInsert t.col_map name t.col_names.length,
             rows := t.rows.map (fun r => r ++ [dflt]) }

/-- Embeds CSVTable::delete_column: fails when absent; erases the name from the
    sequence and the map, decrements every mapped index greater than the erased one,
    and erases the cell from every row. -/
def delete_column (t : Table) (name : String) : Except String Table :=
  match t.col_map name with
  | none => .error "Column name not found"
  | some k =>
    .ok { col_names := t.col_names.eraseIdx k,
          col_map := fun n =>
            if n = name then none
            else (t.col_map n).map (fun i => if k < i then i - 1 else i),
          rows := t.rows.map (fun r => r.eraseIdx k) }

/-- Embeds CSVTable::delete_row. -/
def delete_row (t : Table) (index : Nat) : Except String Table :=
  if index < t.rows.length then .ok { t with rows := t.rows.eraseIdx index }
  else .error "Index out of range"

/-- Embeds CSVTable::remove_rows: keep the rows on which the condition is false. -/
def remove_rows (t : Table) (cond : List Cell → Bool) : Table :=
  { t with rows := t.rows.filter (fun r => !cond r) }

/-- Embeds CSVTable::sub_table: validate every index, then copy those rows in the
    given order over the same schema. -/
def sub_table (t : Table) (row_indices : List Nat) : Except String Table :=
  if row_indices.all (fun i => i < t.rows.length) then
    .ok { t with rows := row_indices.map (fun i => t.rows.getD i []) }
  else .error "Invalid row index"

/-- Embeds CSVTable::filter_rows: indices on which the predicate holds, in order. -/
def filter_rows (t : Table) (pred : Nat → Table → Bool) : List Nat :=
  (List.range t.rows.length).filter (fun i => pred i t)

/-- Embeds CSVTable::filter_table as filter_rows followed by sub_table. -/
def filter_table (t : Table) (pred : Nat → Table → Bool) : Except String Table :=
  sub_table t (filter_rows t pred)

/-- Missing test applied to a cell, as dropna and fillna do: a string alternative whose
    content is one of the missing sentinels. -/
def cellMissing : Cell → Bool
| .text s => isMissing s
| _ => false

/-- Embeds CSVTable::dropna: validate the checked columns (all columns when the list is
    empty), then keep exactly the rows with no missing cell in a checked column. -/
def dropna (t : Table) (columns : List String) : Except String Table :=
  let cols := if columns.isEmpty then t.col_names else columns
  if cols.all (fun c => (t.col_map c).isSome) then
    .ok { t with rows := t.rows.filter (fun r =>
      !(cols.any (fun c => cellMissing (r.getD ((t.col_map c).getD 0) (.text ""))))) }
  else .error "Column name not found"

/-- One column of CSVTable::fillna: replace each missing cell by the fill value. -/
def fillna1 (t : Table) (col : String) (fill : Cell) : Except String Table :=
  match t.col_map col with
  | none => .error "Column name not found"
  | some j => .ok { t with rows := t.rows.map (fun r =>
      if cellMissing (r.getD j (.text "")) then r.set j fill else r) }

/-- Embeds CSVTable::fillna, column by column in the order given (the C++ code
    validates each column inside the same loop that fills it). -/
def fillna : Table → List String → Cell → Except String Table
| t, [], _ => .ok t
| t, c :: cs, fill =>
  match fillna1 t c fill with
  | .ok t1 => fillna t1 cs fill
  | .error e => .error e


/-- Embeds the cell fetch shared by CSVTable::get: range-check the row, resolve the
    column, return the cell.  Cell access inside a row is via getD; the default is
    irrelevant whenever the table invariant (row length = column count) holds. -/
def get_cell (t : Table) (row : Nat) (col : String) : Except String Cell :=
  if row < t.rows.length then
    match t.col_map col with
    | none => .error "Column name not found"
    | some i => .ok ((t.rows.getD row []).getD i (.text ""))
  else .error "Row index out of range"

/-- CSVTable::get with T = double. -/
def get_f64 (t : Table) (row : Nat) (col : String) : Except String ℚ :=
  match get_cell t row col with
  | .ok c => convert_cell_f64 c
  | .error e => .error e

/-- CSVTable::get with T = int. -/
def get_int (t : Table) (row : Nat) (col : String) : Except String Int :=
  match get_cell t row col with
  | .ok c => convert_cell_int c
  | .error e => .error e

/-- CSVTable::get with T = uint64_t. -/
def get_u64 (t : Table) (row : Nat) (col : String) : Except String Nat :=
  match get_cell t row col with
  | .ok c => convert_cell_u64 c
  | .error e => .error e

/-- Embeds CSVTable::get_column_as with T = double: resolve the column, then convert
    every cell, propagating the first conversion error. -/
def get_column_as_f64 (t : Table) (col : String) : Except String (List ℚ) :=
  match t.col_map col with
  | none => .error "Column not found"
  | some j => t.rows.mapM (fun r => convert_cell_f64 (r.getD j (.text "")))

/-- Per-cell action of CSVTable::set_column_type: a text cell that is missing becomes
    the default (skip_errors) or an error; other text is parsed by the per-type string
    branch; a non-text cell goes through convert_cell; either failure becomes the
    default under skip_errors and an error otherwise. -/
def sctCell (parseText : String → Except String Cell) (conv : Cell → Except String Cell)
    (skip : Bool) (dflt : Cell) : Cell → Except String Cell
| .text s =>
  if isMissing s then
    if skip then .ok dflt else .error "Invalid value in column: empty or NA"
  else
    match parseText s with
    | .ok c => .ok c
    | .error e => if skip then .ok dflt else .error e
| c =>
  match conv c with
  | .ok c2 => .ok c2
  | .error e => if skip then .ok dflt else .error e

/-- The row loop of set_column_type: transform the j-th cell of every row, stopping at
    the first error (the C++ loop throws there). -/
def sctRows (parseText : String → Except String Cell) (conv : Cell → Except String Cell)
    (skip : Bool) (dflt : Cell) (j : Nat) :
    List (List Cell) → Except String (List (List Cell))
| [] => .ok []
| r :: rs =>
  match sctCell parseText conv skip dflt (r.getD j (.text "")) with
  | .error e => .error e
  | .ok c =>
    match sctRows parseText conv skip dflt j rs with
    | .error e => .error e
    | .ok rs2 => .ok (r.set j c :: rs2)

/-- Embeds CSVTable::set_column_type, parameterised by the per-type string branch and
    the convert_cell branch (the template is a family of functions in the source). -/
def set_column_type_with (parseText : String → Except String Cell)
    (conv : Cell → Except String Cell) (t : Table) (col : String)
    (skip : Bool) (dflt : Cell) : Except String Table :=
  match t.col_map col with
  | none => .error "Column not found"
  | some j =>
    match sctRows parseText conv skip dflt j t.rows with
    | .ok rs => .ok { t with rows := rs }
    | .error e => .error e

/-- String branch of set_column_type with T = double: std::stod with no check that the
    whole string was consumed. -/
def sctTextF64 (s : String) : Except String Cell :=
  match stod s with
  | none => .error "Conversion error"
  | some (q, _) => .ok (.f64 q)

/-- String branch of set_column_type with T = uint64_t: std::stoull with no check that
    the whole string was consumed. -/
def sctTextU64 (s : String) : Except String Cell :=
  match stoull s with
  | none => .error "Conversion error"
  | some (u, _) => .ok (.u64 u)

/-- String branch of set_column_type with T = int: std::stoi and the whole string must
    be consumed. -/
def sctTextInt (s : String) : Except String Cell :=
  match stoi s with
  | none => .error "Conversion error"
  | some (v, pos) =>
    if pos = s.length then .ok (.i32 v) else .error "stoi did not consume entire string"

/-- CSVTable::set_column_type with T = double. -/
def set_column_type_f64 (t : Table) (col : String) (skip : Bool) (dflt : ℚ) :
    Except String Table :=
  set_column_type_with sctTextF64 (fun c => (convert_cell_f64 c).map Cell.f64) t col skip (.f64 dflt)

/-- CSVTable::set_column_type with T = uint64_t. -/
def set_column_type_u64 (t : Table) (col : String) (skip : Bool) (dflt : Nat) :
    Except String Table :=
  set_column_type_with sctTextU64 (fun c => (convert_cell_u64 c).map Cell.u64) t col skip (.u64 dflt)

/-- CSVTable::set_column_type with T = int. -/
def set_column_type_int (t : Table) (col : String) (skip : Bool) (dflt : Int) :
    Except String Table :=
  set_column_type_with sctTextInt (fun c => (convert_cell_int c).map Cell.i32) t col skip (.i32 dflt)

/-- Embeds CSVTable::set_column_to_value. -/
def set_column_to_value (t : Table) (col : String) (v : Cell) : Except String Table :=
  match t.col_map col with
  | none => .error "Column not found"
  | some j => .ok { t with rows := t.rows.map (fun r => r.set j v) }

/-- Embeds CSVTable::apply_to_column, abstracted over the composite cell-to-cell action
    (convert, apply the user function, fall back to the empty-text conversion): the
    action never fails, so the transform is total on each cell. -/
def apply_to_column_with (t : Table) (col : String) (g : Cell → Cell) :
    Except String Table :=
  match t.col_map col with
  | none => .error "Column not found"
  | some j => .ok { t with rows := t.rows.map (fun r => r.set j (g (r.getD j (.text "")))) }

/-- Canonical key of a row projected onto a column list, as built by drop_duplicates
    and merge from the owning table's name-to-index map: each projected cell formatted
    by cell_to_string and followed by a bar separator. -/
def rowKey (cmap : String → Option Nat) (cols : List String) (r : List Cell) : String :=
  cols.foldl (fun acc c => acc ++ cell_to_string (r.getD ((cmap c).getD 0) (.text "")) ++ "|") ""

/-- The seen-set loop of drop_duplicates: keep a row exactly when its key was not seen
    before, accumulating seen keys (the unordered_set is modelled as a list with
    membership). -/
def dedupRows (key : List Cell → String) : List String → List (List Cell) → List (List Cell)
| _, [] => []
| seen, r :: rs =>
  if seen.contains (key r) then dedupRows key seen rs
  else r :: dedupRows key (key r :: seen) rs

/-- Embeds CSVTable::drop_duplicates (lines 1078-1105): validate the checked columns
    (all columns when the list is empty), then retain the first occurrence of each
    canonical key in order. -/
def drop_duplicates (t : Table) (columns : List String) : Except String Table :=
  let cols := if columns.isEmpty then t.col_names else columns
  if cols.all (fun c => (t.col_map c).isSome) then
    .ok { t with rows := dedupRows (rowKey t.col_map cols) [] t.rows }
  else .error "Column name not found"

/-- The stride-n keep loop of keep_every_nth_row: keep the head, drop the next n-1;
    structurally recursive on a fuel argument so that it evaluates inside the kernel
    (each step consumes at least one element, so the fuel passed by everyNth is always
    sufficient and the zero-fuel case is unreachable). -/
def everyNthAux (n : Nat) : Nat → List (List Cell) → List (List Cell)
| _, [] => []
| 0, r :: _ => [r]
| fuel + 1, r :: rs => r :: everyNthAux n fuel (rs.drop (n - 1))

/-- The stride-n keep loop of keep_every_nth_row. -/
def everyNth (n : Nat) (rows : List (List Cell)) : List (List Cell) :=
  everyNthAux n rows.length rows

/-- Embeds CSVTable::keep_every_nth_row (lines 1627-1645): negative n is an error
    (thrown before any mutation), n = 0 clears the rows, n = 1 is a no-op, otherwise
    rows at indices 0, n, 2n, ... are kept. -/
def keep_every_nth_row (t : Table) (n : Int) : Except String Table :=
  if n < 0 then .error "n must be non-negative"
  else if n = 0 then .ok { t with rows := [] }
  else if n = 1 then .ok t
  else .ok { t with rows := everyNth n.toNat t.rows }

/-- One pair of CSVTable::rename_columns: the old name must exist, the new name must
    not; the key is replaced in the map preserving its index, and the name sequence is
    updated in place. -/
def rename_column1 (t : Table) (oldName newName : String) : Except String Table :=
  match t.col_map oldName with
  | none => .error "Column name not found"
  | some k =>
    if (t.col_map newName).isSome then .error "New column name already exists"
    else .ok { t with col_names := t.col_names.set k newName,
                      col_map := mapInsert (mapErase t.col_map oldName) newName k }

/-- Embeds CSVTable::rename_columns; the pair list stands for the ascending-key
    iteration order of the std::map argument. -/
def rename_columns : Table → List (String × String) → Except String Table
| t, [] => .ok t
| t, (o, nn) :: rest =>
  match rename_column1 t o nn with
  | .ok t1 => rename_columns t1 rest
  | .error e => .error e

/-- Embeds CSVTable::append_table: no-op when the other table has no columns; adopt the
    other table when this one has no columns; otherwise the names must agree exactly
    and the rows are appended. -/
def append_table (t other : Table) : Except String Table :=
  if other.col_names.isEmpty then .ok t
  else if t.col_names.isEmpty then
    .ok { col_names := other.col_names, col_map := other.col_map, rows := other.rows }
  else if t.col_names = other.col_names then .ok { t with rows := t.rows ++ other.rows }
  else .error "Columns do not match for appending"


/-- The j-th candidate name tried by the collision-renaming while loop of merge and
    join: the original name, then name_other, then name_other1, name_other2, and so
    on. -/
def candName (col : String) : Nat → String
| 0 => col
| k + 1 => col ++ "_other" ++ (if k = 0 then "" else natRepr k)

/-- The collision-renaming while loop: return the first candidate not taken.  The C++
    loop needs no fuel because only finitely many names are taken and the candidates
    are pairwise distinct; the fuel passed at each call site below bounds the number of
    taken names and is therefore always sufficient. -/
def freshLoop (taken : String → Bool) (col : String) : Nat → Nat → String
| 0, j => candName col j
| fuel + 1, j =>
  if taken (candName col j) then freshLoop taken col fuel (j + 1) else candName col j

/-- Accumulated state of the result-schema loop of merge: result names so far, result
    map so far, the per-right-column list other_to_new_names, and non_key_cols. -/
structure MergeSchema where
  names : List String
  map : String → Option Nat
  otherToNew : List String
  nonKey : Nat

/-- One step of the result-schema loop of merge (lines 1134-1158): a key column only
    records its own name in other_to_new_names; a non-key column is renamed until it
    collides with nothing in the map so far, then appended to the names and the map. -/
def mergeSchemaStep (on_columns : List String) (st : MergeSchema) (col : String) :
    MergeSchema :=
  if on_columns.contains col then { st with otherToNew := st.otherToNew ++ [col] }
  else
    let nn := freshLoop (fun n => (st.map n).isSome) col (st.names.length + 1) 0
    { names := st.names ++ [nn],
      map := mapInsert st.map nn st.names.length,
      otherToNew := st.otherToNew ++ [nn],
      nonKey := st.nonKey + 1 }

/-- The full result schema of merge: start from the left names and map, fold the right
    columns. -/
def mergeSchema (t other : Table) (on_columns : List String) : MergeSchema :=
  other.col_names.foldl (mergeSchemaStep on_columns)
    { names := t.col_names, map := t.col_map, otherToNew := [], nonKey := 0 }

/-- Append an index to the bucket of its key, creating the bucket on first sight; the
    unordered_map of merge is modelled as an association list in first-insertion
    order (one admissible iteration order of the hash map, on which no settled claim
    depends). -/
def bucketsAdd (b : List (String × List Nat)) (k : String) (i : Nat) :
    List (String × List Nat) :=
  match b with
  | [] => [(k, [i])]
  | (k2, is) :: rest =>
    if k2 = k then (k2, is ++ [i]) :: rest else (k2, is) :: bucketsAdd rest k i

/-- Key-bucket construction over the rows of one table. -/
def buildBucketsAux (key : List Cell → String) :
    List (List Cell) → Nat → List (String × List Nat) → List (String × List Nat)
| [], _, b => b
| r :: rs, i, b => buildBucketsAux key rs (i + 1) (bucketsAdd b (key r) i)

/-- Key buckets of a row list, keyed by the canonical projection. -/
def buildBuckets (key : List Cell → String) (rows : List (List Cell)) :
    List (String × List Nat) :=
  buildBucketsAux key rows 0 []

/-- Bucket lookup (unordered_map contains and at). -/
def lookupBucket (b : List (String × List Nat)) (k : String) : Option (List Nat) :=
  match b with
  | [] => none
  | (k2, is) :: rest => if k2 = k then some is else lookupBucket rest k

/-- The matched-pair row of merge: a default-constructed row (every slot empty Text),
    left columns written from the left row, then each right non-key column written
    from the right row through other_to_new_names. -/
def mergeMatchedRow (t other : Table) (sc : MergeSchema) (on_columns : List String)
    (lrow orow : List Cell) : List Cell :=
  let base := List.replicate sc.names.length (Cell.text "")
  let base1 := t.col_names.foldl (fun acc c =>
    acc.set ((sc.map c).getD 0) (lrow.getD ((t.col_map c).getD 0) (.text ""))) base
  (List.range other.col_names.length).foldl (fun acc i =>
    if on_columns.contains (other.col_names.getD i "") then acc
    else acc.set ((sc.map (sc.otherToNew.getD i "")).getD 0) (orow.getD i (.text ""))) base1

/-- The unmatched-left row of merge (lines 1214-1226): a default-constructed row, left
    columns written from the left row, then the empty-Text fill loop which indexes
    other_to_new_names at on_columns.size() + i for i below non_key_cols — exactly as
    the C++ code does, even though those positions name the non-key columns only when
    the key columns are a prefix of the right table's schema. -/
def mergeUnmatchedRow (t : Table) (sc : MergeSchema) (on_columns : List String)
    (lrow : List Cell) : List Cell :=
  let base := List.replicate sc.names.length (Cell.text "")
  let base1 := t.col_names.foldl (fun acc c =>
    acc.set ((sc.map c).getD 0) (lrow.getD ((t.col_map c).getD 0) (.text ""))) base
  (List.range sc.nonKey).foldl (fun acc i =>
    acc.set ((sc.map (sc.otherToNew.getD (on_columns.length + i) "")).getD 0) (.text "")) base1

/-- A right-loop row of merge: key columns from the right row, left non-key columns
    empty Text, right non-key columns from the right row. -/
def mergeRightRow (t other : Table) (sc : MergeSchema) (on_columns : List String)
    (orow : List Cell) : List Cell :=
  let base := List.replicate sc.names.length (Cell.text "")
  let b1 := on_columns.foldl (fun acc c =>
    acc.set ((sc.map c).getD 0) (orow.getD ((other.col_map c).getD 0) (.text ""))) base
  let b2 := t.col_names.foldl (fun acc c =>
    if on_columns.contains c then acc else acc.set ((sc.map c).getD 0) (.text "")) b1
  (List.range other.col_names.length).foldl (fun acc i =>
    if on_columns.contains (other.col_names.getD i "") then acc
    else acc.set ((sc.map (sc.otherToNew.getD i "")).getD 0) (orow.getD i (.text ""))) b2

/-- Embeds CSVTable::merge (lines 1115-1266): validate the join kind and the key
    columns in both tables, build the result schema and both key-bucket maps, then
    emit the left-bucket loop (inner, left, outer) followed by the right-bucket loop
    (right, outer), each exactly as in the source. -/
def merge (t other : Table) (on_columns : List String) (how : String) :
    Except String Table :=
  if !(["inner", "left", "right", "outer"].contains how) then .error "Invalid join type"
  else if !(on_columns.all (fun c => (t.col_map c).isSome && (other.col_map c).isSome)) then
    .error "Column not found"
  else
    let sc := mergeSchema t other on_columns
    let lb := buildBuckets (rowKey t.col_map on_columns) t.rows
    let rb := buildBuckets (rowKey other.col_map on_columns) other.rows
    let leftPart : List (List Cell) :=
      if how = "inner" ∨ how = "left" ∨ how = "outer" then
        lb.foldl (fun acc kb =>
          match lookupBucket rb kb.1 with
          | some oidx =>
            kb.2.foldl (fun a li =>
              a ++ oidx.map (fun oi =>
                mergeMatchedRow t other sc on_columns (t.rows.getD li []) (other.rows.getD oi []))) acc
          | none =>
            if how = "inner" then acc
            else acc ++ kb.2.map (fun li => mergeUnmatchedRow t sc on_columns (t.rows.getD li []))) []
      else []
    let rightPart : List (List Cell) :=
      if how = "right" ∨ how = "outer" then
        rb.foldl (fun acc kb =>
          if (lookupBucket lb kb.1).isSome && how != "outer" then acc
          else acc ++ kb.2.map (fun oi => mergeRightRow t other sc on_columns (other.rows.getD oi []))) []
      else []
    .ok { col_names := sc.names, col_map := sc.map, rows := leftPart ++ rightPart }

/-- The result row count of join, exactly as both the code and the claim give it:
    min for inner, the left count for left, the right count for right, max for
    outer. -/
def joinN (how : String) (a b : Nat) : Nat :=
  if how = "inner" then min a b
  else if how = "left" then a
  else if how = "right" then b
  else max a b

/-- Embeds CSVTable::join (lines 1275-1350): validate the kind; result columns are the
    left names (as they are) then each right name renamed away from every earlier
    result name; the row count is min, left, right or max of the two sizes (joinN);
    each result row concatenates the i-th rows (or all-empty rows past the end), read
    back through the recorded source positions. -/
def join (t other : Table) (how : String) : Except String Table :=
  if !(["inner", "left", "right", "outer"].contains how) then .error "Invalid join type"
  else
    let base : List String × List (Nat × Nat) :=
      t.col_names.foldl (fun acc col => (acc.1 ++ [col], acc.2 ++ [(0, (t.col_map col).getD 0)])) ([], [])
    let pr : List String × List (Nat × Nat) :=
      other.col_names.foldl (fun acc col =>
        let nn := freshLoop (fun n => acc.1.contains n) col (acc.1.length + 1) 0
        (acc.1 ++ [nn], acc.2 ++ [(1, (other.col_map col).getD 0)])) base
    let N : Nat := joinN how t.rows.length other.rows.length
    let dThis : List Cell := List.replicate t.col_names.length (Cell.text "")
    let dOther : List Cell := List.replicate other.col_names.length (Cell.text "")
    let newRows := (List.range N).map (fun i =>
      let trow := if i < t.rows.length then t.rows.getD i [] else dThis
      let orow := if i < other.rows.length then other.rows.getD i [] else dOther
      pr.2.map (fun src => if src.1 = 0 then trow.getD src.2 (.text "") else orow.getD src.2 (.text "")))
    .ok { col_names := pr.1, col_map := buildMapFrom (canonMap []) pr.1 0, rows := newRows }


/-- Rows of a table-valued result, empty on error (used to state concrete facts about
    operations that succeed). -/
def okRows (e : Except String Table) : List (List Cell) :=
  match e with
  | .ok t => t.rows
  | .error _ => []

/-- Column names of a table-valued result, empty on error. -/
def okCols (e : Except String Table) : List String :=
  match e with
  | .ok t => t.col_names
  | .error _ => []

/-- The table of a successful result, or the fallback. -/
def okT (e : Except String Table) (dflt : Table) : Table :=
  match e with
  | .ok t => t
  | .error _ => dflt


/-- Kernel-evaluable quotient of rationals. -/
def qdiv (a b : ℚ) : ℚ := Rat.divInt (a.num * (b.den : Int)) ((a.den : Int) * b.num)

/-- Embeds CSVTable::mean: fetch the column as double, error when empty, else the sum
    divided by the count (exact rational arithmetic stands in for double sums). -/
def mean (t : Table) (col : String) : Except String ℚ :=
  match get_column_as_f64 t col with
  | .error e => .error e
  | .ok column =>
    if column.isEmpty then .error "Cannot compute mean of empty column"
    else .ok (qdiv (column.foldl qadd (mkRat 0 1)) (qofNat column.length))


/-- Full-consumption signed-integer parse, as the specification words step 3 of the
    parse contract: the stoi attempt succeeds only when it consumed the entire
    string. -/
def stoiFull (s : String) : Option Int :=
  match stoi s with
  | some (v, pos) => if pos = s.length then some v else none
  | none => none

/-- Full-consumption unsigned 64-bit parse (step 4 of the parse contract). -/
def stoullFull (s : String) : Option Nat :=
  match stoull s with
  | some (u, pos) => if pos = s.length then some u else none
  | none => none

/-- Full-consumption floating-point parse (step 5 of the parse contract). -/
def stodFull (s : String) : Option ℚ :=
  match stod s with
  | some (q, pos) => if pos = s.length then some q else none
  | none => none

/-- The parse contract exactly as the specification words it: missing sentinels to
    empty Text, the two boolean literals, then the first of the signed-int, unsigned
    64-bit and floating-point full-consumption parses to succeed, in that order, and
    the original text when all fail. -/
def parseCellSpec (s : String) : Cell :=
  if s = "" ∨ s = "NA" ∨ s = "NaN" ∨ s = "#N/A" then .text ""
  else if s = "true" then .bool true
  else if s = "false" then .bool false
  else
    match stoiFull s with
    | some v => .i32 v
    | none =>
      match stoullFull s with
      | some u => .u64 u
      | none =>
        match stodFull s with
        | some q => .f64 q
        | none => .text s


/-- keep_every_nth_row exactly as the claim words it: error on negative n (leaving the
    table unchanged), clear all rows on zero, no change on one, and for larger n the
    rows at indices 0, n, 2n, ... in their original relative order. -/
def keepSpec (t : Table) (n : Int) : Except String Table :=
  if n < 0 then .error "n must be non-negative"
  else if n = 0 then .ok { t with rows := [] }
  else if n = 1 then .ok t
  else
    let kept := (List.range ((t.rows.length + n.toNat - 1) / n.toNat)).filterMap
      (fun j => t.rows[j * n.toNat]?)
    .ok { t with rows := kept }


/-- Retain the first row bearing each key, in order: the claim-side description of
    drop_duplicates (keep the head, discard every later row with the same key). -/
def firstOcc (key : List Cell → String) : List (List Cell) → List (List Cell)
| [] => []
| r :: rs => r :: firstOcc key (rs.filter (fun r2 => !(key r2 == key r)))
termination_by l => l.length
decreasing_by
  have := List.length_filter_le (fun r2 => !(key r2 == key r)) rs
  simp
  omega


end CSV

namespace CSV

example : parse_cell "1" = .i32 1 := by decide
example : parse_cell "" = .text "" := by decide
example : parse_cell "true" = .bool true := by decide
example : parse_cell "123456789012345" = .u64 123456789012345 := by decide
example : parse_cell "-18446744073709551615" = .u64 1 := by decide
example : parse_cell "90.5" = .f64 (mkRat 181 2) := by decide
example : parse_cell "abc" = .text "abc" := by decide
example : cell_to_string (.i32 (-25)) = "-25" := by decide
example : cell_to_string (.u64 123456789012345) = "123456789012345" := by decide
example : cell_to_string (.f64 (mkRat 181 2)) = "90.5000000000" := by decide
example : cell_to_string (.f64 (mkRat 2 1)) = "2" := by decide
example : cell_to_string (.f64 (mkRat (2 ^ 31) 1)) = "-2147483648" := by decide
example : convert_cell_f64 (.text "1.5abc") = .ok (mkRat 3 2) := by decide
example : convert_cell_u64 (.text "1.5abc") = .ok 1 := by decide
example : (convert_cell_int (.text "1.5abc")).isOk = false := by decide

end CSV

namespace CSV

example : okCols (merge (mkTable ["k", "x"] [[.i32 1, .i32 2]])
    (mkTable ["y", "k"] [[.i32 9, .i32 5]]) ["k"] "left") = ["k", "x", "y"] := by decide
example : okRows (merge (mkTable ["k", "x"] [[.i32 1, .i32 2]])
    (mkTable ["y", "k"] [[.i32 9, .i32 5]]) ["k"] "left") = [[.text "", .i32 2, .text ""]] := by decide
example : okRows (merge (mkTable ["k", "x"] [[.i32 1, .i32 2]])
    (mkTable ["k", "y"] [[.i32 5, .i32 9]]) ["k"] "left") = [[.i32 1, .i32 2, .text ""]] := by decide
example : okCols (join (mkTable ["a", "b"] [[.i32 1, .i32 2]])
    (mkTable ["b", "c"] [[.i32 3, .i32 4], [.i32 5, .i32 6]]) "outer")
    = ["a", "b", "b_other", "c"] := by decide
example : okRows (join (mkTable ["a", "b"] [[.i32 1, .i32 2]])
    (mkTable ["b", "c"] [[.i32 3, .i32 4], [.i32 5, .i32 6]]) "outer")
    = [[.i32 1, .i32 2, .i32 3, .i32 4], [.text "", .text "", .i32 5, .i32 6]] := by decide
example : okRows (keep_every_nth_row (mkTable ["a"] [[.i32 0], [.i32 1], [.i32 2], [.i32 3], [.i32 4]]) 2)
    = [[.i32 0], [.i32 2], [.i32 4]] := by decide
example : okRows (drop_duplicates (mkTable ["a", "b"] [[.i32 1, .i32 2], [.i32 1, .i32 3], [.i32 1, .i32 2]]) ["a", "b"])
    = [[.i32 1, .i32 2], [.i32 1, .i32 3]] := by decide
example : okRows (read_file ["a", "1,2"] emptyTable) = [[.i32 1, .i32 2]] := by decide
example : okCols (read_file ["a", "1,2"] emptyTable) = ["a"] := by decide
example : (okT (read_file ["a,a"] emptyTable) emptyTable).col_map "a" = some 1 := by decide

end CSV

namespace CSV

/-- C10: the Text cell 1.5abc, a decimal number followed by non-numeric characters,
    coerces to double via convert_cell (and through get, get_column_as and mean) with
    the value 3/2 of its numeric prefix, and to uint64_t with the value 1 of its
    integer prefix, while coercion to int fails because the signed coercion demands
    that the whole string be consumed; set_column_type with double and with uint64_t
    accept the same string the same way, and set_column_type with int rejects it. -/
theorem C10_text_numeric_prefix_coercion :
    convert_cell_f64 (.text "1.5abc") = .ok (mkRat 3 2) ∧
    convert_cell_u64 (.text "1.5abc") = .ok 1 ∧
    (convert_cell_int (.text "1.5abc")).isOk = false ∧
    get_f64 (mkTable ["v"] [[.text "1.5abc"]]) 0 "v" = .ok (mkRat 3 2) ∧
    get_column_as_f64 (mkTable ["v"] [[.text "1.5abc"]]) "v" = .ok [mkRat 3 2] ∧
    mean (mkTable ["v"] [[.text "1.5abc"]]) "v" = .ok (mkRat 3 2) ∧
    get_u64 (mkTable ["v"] [[.text "1.5abc"]]) 0 "v" = .ok 1 ∧
    (get_int (mkTable ["v"] [[.text "1.5abc"]]) 0 "v").isOk = false ∧
    okRows (set_column_type_f64 (mkTable ["v"] [[.text "1.5abc"]]) "v" false (mkRat 0 1))
      = [[.f64 (mkRat 3 2)]] ∧
    okRows (set_column_type_u64 (mkTable ["v"] [[.text "1.5abc"]]) "v" false 0)
      = [[.u64 1]] ∧
    (set_column_type_int (mkTable ["v"] [[.text "1.5abc"]]) "v" false 0).isOk = false := by
  decide

/-- C2: counterexample evaluation of the merge bug.  Left table k,x with the single
    row (1, 2); right table y,k with the single row (9, 5); keys k, how left.  The left
    row has no match on the right, and the specification requires the single emitted
    row to project the left row (k = 1, x = 2) with empty Text in the right non-key
    column y.  The code instead emits k as empty Text: its empty-fill loop reads
    other_to_new_names starting at on_columns.size(), which names the non-key columns
    only when the key columns are a prefix of the right schema; here it hits the key
    column k and overwrites the key value copied from the left row. -/
theorem C2_merge_unmatched_left_clobbers_key :
    okCols (merge (mkTable ["k", "x"] [[.i32 1, .i32 2]])
      (mkTable ["y", "k"] [[.i32 9, .i32 5]]) ["k"] "left") = ["k", "x", "y"] ∧
    okRows (merge (mkTable ["k", "x"] [[.i32 1, .i32 2]])
      (mkTable ["y", "k"] [[.i32 9, .i32 5]]) ["k"] "left")
      = [[.text "", .i32 2, .text ""]] ∧
    ([[Cell.text "", .i32 2, .text ""]] : List (List Cell))
      ≠ [[Cell.i32 1, .i32 2, .text ""]] := by
  decide

/-- C4: counterexample evaluation of the integral-double format bug.  The double
    2147483648 equals its floor, so the claim requires cell_to_string to emit the
    decimal integer 2147483648; the code instead applies static_cast to int, which is
    undefined behaviour for this value and produces INT_MIN on x86-64, so the emitted
    text is -2147483648. -/
theorem C4_integral_double_format_truncates_to_int :
    cell_to_string (.f64 (mkRat (2 ^ 31) 1)) = "-2147483648" ∧
    cell_to_string (.f64 (mkRat (2 ^ 31) 1)) ≠ "2147483648" := by
  decide

end CSV

namespace CSV

/-- C5: parse_cell returns empty Text on the empty string and the NA, NaN and hash-N-A
    sentinels, Bool on the exact literals true and false, and otherwise the result of
    the first parse to succeed while consuming the entire string, tried in the order
    signed int (I32), unsigned 64-bit (U64), floating point (F64), falling back to
    Text; in particular the string 1 parses to I32 1, not U64. -/
theorem C5_parse_cell_inference_order :
    (∀ s, parse_cell s = parseCellSpec s) ∧ parse_cell "1" = .i32 1 := by
  refine ⟨fun s => ?_, by decide⟩
  unfold parse_cell parseCellSpec parse_cellU64 parse_cellF64 stoiFull stoullFull stodFull
  cases hi : stoi s with
  | some p =>
    cases p with
    | mk v pos =>
      by_cases hpos : pos = s.length <;>
        simp only [hpos, if_true, if_false, reduceIte] <;>
        cases hu : stoull s with
        | some p2 =>
          cases p2 with
          | mk u pos2 =>
            by_cases hpos2 : pos2 = s.length <;> simp [hpos2] <;>
              cases hd : stod s with
              | some p3 => cases p3 with
                | mk q pos3 => by_cases hpos3 : pos3 = s.length <;> simp [hpos3]
              | none => simp
        | none =>
          simp <;>
            cases hd : stod s with
            | some p3 => cases p3 with
              | mk q pos3 => by_cases hpos3 : pos3 = s.length <;> simp [hpos3]
            | none => simp
  | none =>
    simp only []
    cases hu : stoull s with
    | some p2 =>
      cases p2 with
      | mk u pos2 =>
        by_cases hpos2 : pos2 = s.length <;> simp [hpos2] <;>
          cases hd : stod s with
          | some p3 => cases p3 with
            | mk q pos3 => by_cases hpos3 : pos3 = s.length <;> simp [hpos3]
          | none => simp
    | none =>
      cases hd : stod s with
      | some p3 =>
        cases p3 with
        | mk q pos3 => by_cases hpos3 : pos3 = s.length <;> simp [hpos3]
      | none => simp

end CSV

namespace CSV

lemma everyNthAux_eq (n : Nat) (hn : 1 ≤ n) :
    ∀ (fuel : Nat) (l : List (List Cell)), l.length ≤ fuel →
      everyNthAux n fuel l
        = (List.range ((l.length + n - 1) / n)).filterMap (fun j => l[j * n]?) := by
  intro fuel
  induction fuel with
  | zero =>
    intro l hl
    have : l = [] := List.eq_nil_of_length_eq_zero (Nat.le_zero.mp hl)
    subst this
    have : (0 + n - 1) / n = 0 := Nat.div_eq_of_lt (by omega)
    simp [everyNthAux, this]
  | succ f ih =>
    intro l hl
    cases l with
    | nil =>
      have : (0 + n - 1) / n = 0 := Nat.div_eq_of_lt (by omega)
      simp [everyNthAux, this]
    | cons r rs =>
      have hlen : (rs.drop (n - 1)).length ≤ f := by
        simp only [List.length_drop]
        simp only [List.length_cons] at hl
        omega
      have hcount : (rs.length + 1 + n - 1) / n = rs.length / n + 1 := by
        have : rs.length + 1 + n - 1 = rs.length + n := by omega
        rw [this, Nat.add_div_right _ (by omega)]
      have hcount2 : ((rs.drop (n - 1)).length + n - 1) / n = rs.length / n := by
        simp only [List.length_drop]
        rcases Nat.le_total (n - 1) rs.length with h | h
        · have : rs.length - (n - 1) + n - 1 = rs.length := by omega
          rw [this]
        · have h0 : rs.length - (n - 1) = 0 := by omega
          rw [h0]
          have h1 : (0 + n - 1) / n = 0 := Nat.div_eq_of_lt (by omega)
          have h2 : rs.length / n = 0 := Nat.div_eq_of_lt (by omega)
          rw [h1, h2]
      simp only [everyNthAux, List.length_cons, hcount, List.range_succ_eq_map,
        List.filterMap_cons, ih _ hlen, hcount2]
      simp only [Nat.zero_mul, List.getElem?_cons_zero, Option.toList_some,
        List.filterMap_map]
      congr 1
      apply List.filterMap_congr
      intro j _
      have h1 : (rs.drop (n - 1))[j * n]? = rs[(n - 1) + j * n]? := List.getElem?_drop ..
      have h2 : Nat.succ j * n = ((n - 1) + j * n) + 1 := by
        have : Nat.succ j * n = j * n + n := Nat.succ_mul j n
        omega
      simp only [Function.comp_apply, h1, h2, List.getElem?_cons_succ]

/-- C9: keep_every_nth_row raises an error exactly when n is negative (and the table is
    unchanged, the exception being thrown before any mutation), clears all rows for
    n = 0, changes nothing for n = 1, and for n at least 2 retains exactly the rows at
    indices 0, n, 2n, ... in their original relative order. -/
theorem C9_keep_every_nth_row : ∀ (t : Table) (n : Int),
    keep_every_nth_row t n = keepSpec t n := by
  intro t n
  unfold keep_every_nth_row keepSpec
  by_cases h0 : n < 0
  · simp [h0]
  by_cases h1 : n = 0
  · simp [h0, h1]
  by_cases h2 : n = 1
  · simp [h0, h1, h2]
  simp only [h0, h1, h2, if_false]
  have hn : 1 ≤ n.toNat := by omega
  have he := everyNthAux_eq n.toNat hn t.rows.length t.rows (Nat.le_refl _)
  simp only [everyNth, he]

end CSV

namespace CSV

lemma dedupRows_eq (key : List Cell → String) :
    ∀ (l : List (List Cell)) (seen : List String),
      dedupRows key seen l = firstOcc key (l.filter (fun r => !(seen.contains (key r)))) := by
  intro l
  induction l with
  | nil => intro seen; simp [dedupRows, firstOcc]
  | cons r rs ih =>
    intro seen
    by_cases h : seen.contains (key r)
    · simp only [dedupRows, h, if_true, List.filter_cons, Bool.not_true,
        Bool.false_eq_true, if_false, reduceIte]
      exact ih seen
    · have hb : seen.contains (key r) = false := by
        revert h
        cases seen.contains (key r) <;> simp
      simp only [dedupRows, hb, Bool.false_eq_true, if_false, List.filter_cons,
        Bool.not_false, if_true, reduceIte, firstOcc]
      have hfl : List.filter (fun r2 => !((key r :: seen).contains (key r2))) rs
          = List.filter (fun r2 => !(key r2 == key r))
              (List.filter (fun r2 => !(seen.contains (key r2))) rs) := by
        rw [List.filter_filter]
        apply List.filter_congr
        intro x _
        simp only [List.contains_cons, Bool.not_or]
      rw [ih (key r :: seen), hfl]

lemma firstOcc_mem (key : List Cell → String) :
    ∀ (m : Nat) (l : List (List Cell)), l.length ≤ m →
      ∀ x ∈ firstOcc key l, x ∈ l := by
  intro m
  induction m with
  | zero =>
    intro l hl
    have : l = [] := List.eq_nil_of_length_eq_zero (Nat.le_zero.mp hl)
    subst this
    simp [firstOcc]
  | succ f ih =>
    intro l hl x hx
    cases l with
    | nil => simpa [firstOcc] using hx
    | cons r rs =>
      simp only [firstOcc, List.mem_cons] at hx
      rcases hx with h | h
      · exact List.mem_cons.mpr (Or.inl h)
      · have hlen : (rs.filter (fun r2 => !(key r2 == key r))).length ≤ f := by
          have := List.length_filter_le (fun r2 => !(key r2 == key r)) rs
          simp only [List.length_cons] at hl
          omega
        have hx2 := ih _ hlen x h
        exact List.mem_cons.mpr (Or.inr (List.mem_of_mem_filter hx2))

lemma firstOcc_pairwise (key : List Cell → String) :
    ∀ (m : Nat) (l : List (List Cell)), l.length ≤ m →
      (firstOcc key l).Pairwise (fun a b => key a ≠ key b) := by
  intro m
  induction m with
  | zero =>
    intro l hl
    have : l = [] := List.eq_nil_of_length_eq_zero (Nat.le_zero.mp hl)
    subst this
    simp [firstOcc]
  | succ f ih =>
    intro l hl
    cases l with
    | nil => simp [firstOcc]
    | cons r rs =>
      have hlen : (rs.filter (fun r2 => !(key r2 == key r))).length ≤ f := by
        have := List.length_filter_le (fun r2 => !(key r2 == key r)) rs
        simp only [List.length_cons] at hl
        omega
      simp only [firstOcc, List.pairwise_cons]
      constructor
      · intro b hb
        have hbf := firstOcc_mem key f _ hlen b hb
        have := List.of_mem_filter hbf
        simp only [Bool.not_eq_true'] at this
        intro hcon
        rw [hcon] at this
        simp at this
      · exact ih _ hlen

lemma firstOcc_of_pairwise (key : List Cell → String) :
    ∀ (m : Nat) (l : List (List Cell)), l.length ≤ m →
      l.Pairwise (fun a b => key a ≠ key b) → firstOcc key l = l := by
  intro m
  induction m with
  | zero =>
    intro l hl _
    have : l = [] := List.eq_nil_of_length_eq_zero (Nat.le_zero.mp hl)
    subst this
    simp [firstOcc]
  | succ f ih =>
    intro l hl hp
    cases l with
    | nil => simp [firstOcc]
    | cons r rs =>
      simp only [List.pairwise_cons] at hp
      have hfe : rs.filter (fun r2 => !(key r2 == key r)) = rs := by
        apply List.filter_eq_self.mpr
        intro x hx
        have : key r ≠ key x := hp.1 x hx
        simp only [Bool.not_eq_eq_eq_not, Bool.not_true, beq_eq_false_iff_ne]
        exact fun hc => this hc.symm
      simp only [firstOcc, hfe]
      have hlen : rs.length ≤ f := by
        simp only [List.length_cons] at hl
        omega
      rw [ih _ hlen hp.2]

lemma firstOcc_idem (key : List Cell → String) (l : List (List Cell)) :
    firstOcc key (firstOcc key l) = firstOcc key l := by
  apply firstOcc_of_pairwise key (firstOcc key l).length _ (Nat.le_refl _)
  exact firstOcc_pairwise key l.length l (Nat.le_refl _)

/-- C8: on a valid column list (the empty list meaning all columns),
    drop_duplicates succeeds and retains exactly the first row bearing each canonical
    key, in the original order (stated through firstOcc, which keeps each head and
    discards every later row with the same key); applying drop_duplicates a second
    time with the same column list returns the very same result. -/
theorem C8_drop_duplicates_first_occurrence_idempotent
    (t : Table) (columns : List String)
    (hvalid : ∀ c ∈ (if columns.isEmpty then t.col_names else columns),
      (t.col_map c).isSome) :
    drop_duplicates t columns
      = .ok { t with rows := (
          firstOcc (rowKey t.col_map (if columns.isEmpty then t.col_names else columns)) t.rows) } ∧
    drop_duplicates (okT (drop_duplicates t columns) t) columns
      = drop_duplicates t columns := by
  have hall : (if columns.isEmpty then t.col_names else columns).all
      (fun c => (t.col_map c).isSome) = true := by
    rw [List.all_eq_true]
    intro c hc
    exact hvalid c hc
  have h1 : drop_duplicates t columns
      = .ok { t with rows := (
          firstOcc (rowKey t.col_map (if columns.isEmpty then t.col_names else columns)) t.rows) } := by
    unfold drop_duplicates
    simp only [hall, if_true, reduceIte]
    congr 1
    rw [dedupRows_eq]
    have hfe : List.filter (fun r => !(([] : List String).contains
        (rowKey t.col_map (if columns.isEmpty then t.col_names else columns) r))) t.rows
        = t.rows := List.filter_eq_self.mpr (fun x _ => by simp)
    rw [hfe]
  refine ⟨h1, ?_⟩
  rw [h1]
  unfold okT
  unfold drop_duplicates
  dsimp only
  simp only [hall, if_true, reduceIte]
  congr 2
  rw [dedupRows_eq]
  have hfe2 : List.filter (fun r => !(([] : List String).contains
      (rowKey t.col_map (if columns.isEmpty then t.col_names else columns) r)))
      (firstOcc (rowKey t.col_map (if columns.isEmpty then t.col_names else columns)) t.rows)
      = firstOcc (rowKey t.col_map (if columns.isEmpty then t.col_names else columns)) t.rows :=
    List.filter_eq_self.mpr (fun x _ => by simp)
  rw [hfe2]
  exact firstOcc_idem _ _

/-- C8 witness: a concrete application on a two-column table with a repeated key. -/
theorem C8_witness :
    drop_duplicates (mkTable ["a", "b"] [[.i32 1, .i32 2], [.i32 1, .i32 3], [.i32 1, .i32 2]]) ["a", "b"]
      = .ok { mkTable ["a", "b"] [[.i32 1, .i32 2], [.i32 1, .i32 3], [.i32 1, .i32 2]] with rows := (
          firstOcc (rowKey (mkTable ["a", "b"] [[.i32 1, .i32 2], [.i32 1, .i32 3], [.i32 1, .i32 2]]).col_map ["a", "b"])
            [[.i32 1, .i32 2], [.i32 1, .i32 3], [.i32 1, .i32 2]]) } ∧
    drop_duplicates (okT (drop_duplicates (mkTable ["a", "b"] [[.i32 1, .i32 2], [.i32 1, .i32 3], [.i32 1, .i32 2]]) ["a", "b"])
        (mkTable ["a", "b"] [[.i32 1, .i32 2], [.i32 1, .i32 3], [.i32 1, .i32 2]])) ["a", "b"]
      = drop_duplicates (mkTable ["a", "b"] [[.i32 1, .i32 2], [.i32 1, .i32 3], [.i32 1, .i32 2]]) ["a", "b"] :=
  C8_drop_duplicates_first_occurrence_idempotent
    (mkTable ["a", "b"] [[.i32 1, .i32 2], [.i32 1, .i32 3], [.i32 1, .i32 2]]) ["a", "b"]
    (by decide)

end CSV

namespace CSV

lemma canonMap_get (names : List String) (hn : names.Nodup) :
    ∀ (i : Nat) (h : i < names.length), canonMap names (names.get ⟨i, h⟩) = some i := by
  induction names with
  | nil => intro i h; simp at h
  | cons a rest ih =>
    intro i h
    cases i with
    | zero => simp [canonMap]
    | succ j =>
      have hj : j < rest.length := by simpa using h
      have hmem : rest.get ⟨j, hj⟩ ∈ rest := List.get_mem rest j hj
      have hne : a ≠ rest.get ⟨j, hj⟩ := by
        have hna : a ∉ rest := (List.nodup_cons.mp hn).1
        exact fun hc => hna (hc ▸ hmem)
      have ihm := ih (List.nodup_cons.mp hn).2 j hj
      simp only [canonMap, List.get_cons_succ, hne, if_false, reduceIte]
      rw [ihm]
      rfl

lemma getD_replicate_self (n i : Nat) (d : Cell) : (List.replicate n d).getD i d = d := by
  by_cases h : i < n
  · rw [List.getD_eq_getElem _ _ (by simpa using h)]
    simp
  · rw [List.getD_eq_default]
    simpa using h

lemma map_proj_self (names : List String) (hn : names.Nodup) (row : List Cell)
    (hr : row.length = names.length) (d : Cell) :
    names.map (fun c => row.getD ((canonMap names c).getD 0) d) = row := by
  apply List.ext_get
  · simp [hr]
  intro i h1 h2
  simp only [List.get_map]
  rw [canonMap_get names hn i (by simpa using h1)]
  simp only [Option.getD_some]
  rw [List.getD_eq_getElem _ _ (by simpa [hr] using h1)]
  simp [List.get_eq_getElem]

lemma join_base_snd (cmap : String → Option Nat) :
    ∀ (l : List String) (acc : List String × List (Nat × Nat)),
      (l.foldl (fun acc col => (acc.1 ++ [col], acc.2 ++ [(0, (cmap col).getD 0)])) acc).2
        = acc.2 ++ l.map (fun col => ((0 : Nat), (cmap col).getD 0)) := by
  intro l
  induction l with
  | nil => intro acc; simp
  | cons c cs ih =>
    intro acc
    rw [List.foldl_cons, ih]
    simp

lemma join_other_snd (cmap : String → Option Nat) :
    ∀ (l : List String) (acc : List String × List (Nat × Nat)),
      (l.foldl (fun acc col =>
        let nn := freshLoop (fun n => acc.1.contains n) col (acc.1.length + 1) 0
        (acc.1 ++ [nn], acc.2 ++ [(1, (cmap col).getD 0)])) acc).2
        = acc.2 ++ l.map (fun col => ((1 : Nat), (cmap col).getD 0)) := by
  intro l
  induction l with
  | nil => intro acc; simp
  | cons c cs ih =>
    intro acc
    rw [List.foldl_cons, ih]
    simp

lemma proj_or_pad (names : List String) (hn : names.Nodup) (rows : List (List Cell))
    (hr : ∀ r ∈ rows, r.length = names.length) (i : Nat) :
    names.map (fun c =>
        (if i < rows.length then rows.getD i [] else List.replicate names.length (Cell.text "")).getD
          ((canonMap names c).getD 0) (Cell.text ""))
      = (if i < rows.length then rows.getD i [] else List.replicate names.length (Cell.text "")) := by
  by_cases h : i < rows.length
  · simp only [h, if_true, reduceIte]
    apply map_proj_self names hn
    apply hr
    rw [List.getD_eq_getElem _ _ (by simpa using h)]
    exact List.getElem_mem _
  · simp only [h, if_false, Bool.false_eq_true, reduceIte]
    have : ∀ c ∈ names,
        (List.replicate names.length (Cell.text "")).getD ((canonMap names c).getD 0) (Cell.text "")
          = Cell.text "" := fun c _ => getD_replicate_self _ _ _
    rw [List.map_congr_left this]
    simp [List.map_const, List.eq_replicate_iff]

/-- C7: for every pair of tables (with consistent schemas) and every valid how, join
    produces exactly joinN rows — min of the sizes for inner, the left size for left,
    the right size for right, max for outer — and the i-th result row is the i-th left
    row (or an all-empty-Text row of the left width when i is past the left end)
    concatenated with the i-th right row (or an all-empty-Text row of the right
    width). -/
theorem C7_join_positional (t other : Table) (how : String)
    (hhow : how = "inner" ∨ how = "left" ∨ how = "right" ∨ how = "outer")
    (hmt : t.col_map = canonMap t.col_names)
    (hmo : other.col_map = canonMap other.col_names)
    (hnt : t.col_names.Nodup) (hno : other.col_names.Nodup)
    (hrt : ∀ r ∈ t.rows, r.length = t.col_names.length)
    (hro : ∀ r ∈ other.rows, r.length = other.col_names.length) :
    (join t other how).isOk = true ∧
    (okRows (join t other how)).length = joinN how t.rows.length other.rows.length ∧
    okRows (join t other how) = (List.range (joinN how t.rows.length other.rows.length)).map
      (fun i =>
        (if i < t.rows.length then t.rows.getD i []
         else List.replicate t.col_names.length (Cell.text ""))
        ++ (if i < other.rows.length then other.rows.getD i []
            else List.replicate other.col_names.length (Cell.text ""))) := by
  have hc : (["inner", "left", "right", "outer"].contains how) = true := by
    rcases hhow with rfl | rfl | rfl | rfl <;> decide
  have hrows : okRows (join t other how) = (List.range (joinN how t.rows.length other.rows.length)).map
      (fun i =>
        (if i < t.rows.length then t.rows.getD i []
         else List.replicate t.col_names.length (Cell.text ""))
        ++ (if i < other.rows.length then other.rows.getD i []
            else List.replicate other.col_names.length (Cell.text ""))) := by
    unfold join okRows
    simp only [hc, Bool.not_true, Bool.false_eq_true, if_false, reduceIte]
    apply List.map_congr_left
    intro i _
    rw [join_other_snd, join_base_snd]
    simp only [List.nil_append, List.map_append, List.map_map]
    congr 1
    · have := proj_or_pad t.col_names hnt t.rows hrt i
      rw [hmt]
      simpa using this
    · have := proj_or_pad other.col_names hno other.rows hro i
      rw [hmo]
      simpa using this
  refine ⟨?_, ?_, hrows⟩
  · unfold join
    simp only [hc, Bool.not_true, Bool.false_eq_true, if_false, reduceIte]
    rfl
  · rw [hrows]
    simp

/-- C7 witness: a concrete outer join of a two-row table with a one-row table. -/
theorem C7_witness :
    (join (mkTable ["a"] [[.i32 1], [.i32 2]]) (mkTable ["b"] [[.i32 3]]) "outer").isOk = true ∧
    (okRows (join (mkTable ["a"] [[.i32 1], [.i32 2]]) (mkTable ["b"] [[.i32 3]]) "outer")).length
      = joinN "outer" 2 1 ∧
    okRows (join (mkTable ["a"] [[.i32 1], [.i32 2]]) (mkTable ["b"] [[.i32 3]]) "outer")
      = (List.range (joinN "outer" 2 1)).map (fun i =>
        (if i < 2 then [[Cell.i32 1], [Cell.i32 2]].getD i []
         else List.replicate 1 (Cell.text ""))
        ++ (if i < 1 then [[Cell.i32 3]].getD i [] else List.replicate 1 (Cell.text ""))) :=
  C7_join_positional (mkTable ["a"] [[.i32 1], [.i32 2]]) (mkTable ["b"] [[.i32 3]]) "outer"
    (by decide) rfl rfl (by decide) (by decide) (by decide) (by decide)

end CSV

namespace CSV

lemma digitChar_val (n : Nat) (h : n < 10) : (digitChar n).toNat - 48 = n := by
  interval_cases n <;> decide

lemma natDigitsAux_acc (fuel : Nat) : ∀ (n : Nat) (acc : List Char),
    natDigitsAux fuel n acc = natDigitsAux fuel n [] ++ acc := by
  induction fuel with
  | zero => intro n acc; simp [natDigitsAux]
  | succ f ih =>
    intro n acc
    by_cases h : n < 10
    · simp [natDigitsAux, h]
    · simp only [natDigitsAux, h, if_false, reduceIte]
      rw [ih (n / 10) (digitChar (n % 10) :: acc), ih (n / 10) [digitChar (n % 10)]]
      simp

lemma digitsVal_append_sing (xs : List Char) (c : Char) :
    digitsVal (xs ++ [c]) = digitsVal xs * 10 + (c.toNat - 48) := by
  simp [digitsVal, List.foldl_append]

lemma digitsVal_natDigitsAux : ∀ (fuel n : Nat), n ≤ fuel →
    digitsVal (natDigitsAux fuel n []) = n := by
  intro fuel
  induction fuel with
  | zero =>
    intro n h
    interval_cases n
    decide
  | succ f ih =>
    intro n h
    by_cases h10 : n < 10
    · simp only [natDigitsAux, h10, if_true, reduceIte]
      have hv := digitChar_val n h10
      simp [digitsVal]
      omega
    · simp only [natDigitsAux, h10, if_false, reduceIte]
      rw [natDigitsAux_acc, digitsVal_append_sing]
      have hdiv : n / 10 ≤ f := by
        have := Nat.div_lt_self (show 0 < n by omega) (show 1 < 10 by omega)
        omega
      rw [ih (n / 10) hdiv, digitChar_val (n % 10) (Nat.mod_lt n (by omega))]
      omega

lemma digitsVal_natDigits (n : Nat) : digitsVal (natDigits n) = n :=
  digitsVal_natDigitsAux n n (Nat.le_refl n)

lemma natRepr_injective : Function.Injective natRepr := by
  intro a b h
  have hd : natDigits a = natDigits b := by
    have := congrArg String.data h
    simpa [natRepr] using this
  have := congrArg digitsVal hd
  simpa [digitsVal_natDigits] using this

lemma natDigitsAux_ne_nil : ∀ (fuel n : Nat) (acc : List Char),
    natDigitsAux fuel n acc ≠ [] := by
  intro fuel
  induction fuel with
  | zero => intro n acc; simp [natDigitsAux]
  | succ f ih =>
    intro n acc
    by_cases h : n < 10
    · simp [natDigitsAux, h]
    · simp only [natDigitsAux, h, if_false, reduceIte]
      exact ih (n / 10) (digitChar (n % 10) :: acc)

lemma natRepr_ne_empty (n : Nat) : natRepr n ≠ "" := by
  unfold natRepr natDigits
  intro h
  exact natDigitsAux_ne_nil n n [] (congrArg String.data h)

lemma candName_zero_length (col : String) : (candName col 0).length = col.length := by
  simp [candName]

lemma candName_succ_length (col : String) (k : Nat) :
    (candName col (k + 1)).length
      = col.length + 6 + (if k = 0 then "" else natRepr k).length := by
  simp only [candName, String.length_append]
  have h6 : "_other".length = 6 := rfl
  omega

lemma candName_succ_inj (col : String) (k m : Nat)
    (h : candName col (k + 1) = candName col (m + 1)) :
    (if k = 0 then "" else natRepr k) = (if m = 0 then "" else natRepr m) := by
  have hd := congrArg String.data h
  simp only [candName, String.data_append, List.append_assoc] at hd
  apply String.ext
  exact List.append_cancel_left (List.append_cancel_left hd)

lemma candName_injective (col : String) : Function.Injective (candName col) := by
  intro a b h
  cases a with
  | zero =>
    cases b with
    | zero => rfl
    | succ m =>
      exfalso
      have hL := congrArg String.length h
      rw [candName_zero_length, candName_succ_length] at hL
      omega
  | succ k =>
    cases b with
    | zero =>
      exfalso
      have hL := congrArg String.length h
      rw [candName_zero_length, candName_succ_length] at hL
      omega
    | succ m =>
      have ht := candName_succ_inj col k m h
      by_cases hk : k = 0
      · by_cases hm : m = 0
        · omega
        · exfalso
          rw [if_pos hk, if_neg hm] at ht
          exact natRepr_ne_empty m ht.symm
      · by_cases hm : m = 0
        · exfalso
          rw [if_neg hk, if_pos hm] at ht
          exact natRepr_ne_empty k ht
        · rw [if_neg hk, if_neg hm] at ht
          have := natRepr_injective ht
          omega

lemma freshLoop_not_taken (taken : String → Bool) (col : String) :
    ∀ (fuel j : Nat), (∃ i, j ≤ i ∧ i ≤ j + fuel ∧ taken (candName col i) = false) →
      taken (freshLoop taken col fuel j) = false := by
  intro fuel
  induction fuel with
  | zero =>
    intro j hex
    obtain ⟨i, h1, h2, h3⟩ := hex
    have : i = j := by omega
    subst this
    simpa [freshLoop] using h3
  | succ f ih =>
    intro j hex
    obtain ⟨i, h1, h2, h3⟩ := hex
    by_cases ht : taken (candName col j) = true
    · simp only [freshLoop, ht, if_true, reduceIte]
      apply ih (j + 1)
      refine ⟨i, ?_, by omega, h3⟩
      rcases Nat.eq_or_lt_of_le h1 with rfl | hlt
      · rw [h3] at ht
        exact absurd ht (by simp)
      · omega
    · have ht2 : taken (candName col j) = false := by
        revert ht
        cases taken (candName col j) <;> simp
      simp [freshLoop, ht2]

lemma exists_not_mem_cand (names : List String) (col : String) :
    ∃ i, i ≤ names.length ∧ candName col i ∉ names := by
  by_contra hcon
  push_neg at hcon
  have hnd : ((List.range (names.length + 1)).map (candName col)).Nodup :=
    List.Nodup.map (candName_injective col) (List.nodup_range _)
  have hlen : ((List.range (names.length + 1)).map (candName col)).length
      = names.length + 1 := by simp
  have hle : ((List.range (names.length + 1)).map (candName col)).length
      ≤ names.length := by
    calc ((List.range (names.length + 1)).map (candName col)).length
        = ((List.range (names.length + 1)).map (candName col)).toFinset.card :=
          (List.toFinset_card_of_nodup hnd).symm
      _ ≤ names.toFinset.card := by
          apply Finset.card_le_card
          intro x hx
          simp only [List.mem_toFinset, List.mem_map, List.mem_range] at hx
          obtain ⟨i, hi, rfl⟩ := hx
          simp only [List.mem_toFinset]
          exact hcon i (by omega)
      _ ≤ names.length := names.toFinset_card_le
  omega

lemma canonMap_isSome_iff (names : List String) (n : String) :
    (canonMap names n).isSome = true ↔ n ∈ names := by
  induction names with
  | nil => simp [canonMap]
  | cons c cs ih =>
    by_cases h : c = n
    · simp [canonMap, h]
    · have hmap : (Option.map (fun i => i + 1) (canonMap cs n)).isSome
          = (canonMap cs n).isSome := by
        cases canonMap cs n <;> rfl
      simp only [canonMap, h, if_false, reduceIte, hmap, ih, List.mem_cons]
      constructor
      · exact fun hm => Or.inr hm
      · rintro (hc | hm)
        · exact absurd hc.symm h
        · exact hm

lemma canonMap_append_sing (l : List String) (x n : String) :
    canonMap (l ++ [x]) n
      = if (canonMap l n).isSome then canonMap l n
        else if x = n then some l.length else none := by
  induction l with
  | nil => simp [canonMap]
  | cons c cs ih =>
    by_cases h : c = n
    · simp [canonMap, h]
    · simp only [List.cons_append, canonMap, h, if_false, reduceIte,
        List.length_cons, List.append_eq]
      rw [ih]
      cases hcm : canonMap cs n with
      | some v => simp
      | none =>
        simp only [Option.isSome_none, Bool.false_eq_true, if_false, reduceIte,
          Option.map_none]
        by_cases hx : x = n
        · simp [hx]
        · simp [hx]

lemma mapInsert_canonMap_append (names : List String) (x : String)
    (hx : x ∉ names) :
    mapInsert (canonMap names) x names.length = canonMap (names ++ [x]) := by
  funext n
  unfold mapInsert
  rw [canonMap_append_sing]
  by_cases h : n = x
  · subst h
    have hs : (canonMap names n).isSome = false := by
      rw [Bool.eq_false_iff]
      intro ht
      exact hx ((canonMap_isSome_iff _ _).mp ht)
    simp [hs]
  · have hxn : ¬(x = n) := fun hc => h hc.symm
    simp only [h, if_false, reduceIte, hxn]
    by_cases hs : (canonMap names n).isSome
    · simp [hs]
    · have hn : canonMap names n = none := Option.not_isSome_iff_eq_none.mp (by simp [hs])
      simp [hs, hn]

end CSV

namespace CSV

lemma mergeSchemaStep_inv (on_columns : List String) (col : String) (st : MergeSchema)
    (h1 : st.map = canonMap st.names) (h2 : st.names.Nodup) :
    (mergeSchemaStep on_columns st col).map
        = canonMap (mergeSchemaStep on_columns st col).names
      ∧ (mergeSchemaStep on_columns st col).names.Nodup
      ∧ (mergeSchemaStep on_columns st col).names.take st.names.length = st.names := by
  unfold mergeSchemaStep
  by_cases hk : on_columns.contains col
  · simp only [hk, if_true, reduceIte]
    exact ⟨h1, h2, List.take_length st.names⟩
  · simp only [hk, Bool.false_eq_true, if_false, reduceIte]
    obtain ⟨i, hi, hfree⟩ := exists_not_mem_cand st.names col
    set nn := freshLoop (fun n => (st.map n).isSome) col (st.names.length + 1) 0 with hdef
    have hnn : (st.map nn).isSome = false := by
      rw [hdef]
      exact freshLoop_not_taken (fun n => (st.map n).isSome) col (st.names.length + 1) 0
        ⟨i, by omega, by omega, by
          show (st.map (candName col i)).isSome = false
          rw [h1, Bool.eq_false_iff]
          intro ht
          exact hfree ((canonMap_isSome_iff _ _).mp ht)⟩
    have hnm : nn ∉ st.names := by
      intro hmem
      have hsome : (st.map nn).isSome = true := by
        rw [h1]
        exact (canonMap_isSome_iff _ _).mpr hmem
      rw [hnn] at hsome
      exact Bool.false_ne_true hsome
    refine ⟨?_, ?_, ?_⟩
    · dsimp only
      rw [h1]
      exact mapInsert_canonMap_append st.names _ hnm
    · dsimp only
      rw [List.nodup_append]
      refine ⟨h2, List.nodup_singleton _, ?_⟩
      intro a ha hb
      simp only [List.mem_singleton] at hb
      subst hb
      exact hnm ha
    · dsimp only
      exact List.take_left st.names _

lemma mergeSchemaFold_inv (on_columns : List String) :
    ∀ (l : List String) (st : MergeSchema),
      st.map = canonMap st.names → st.names.Nodup →
      ((l.foldl (mergeSchemaStep on_columns) st).map
          = canonMap (l.foldl (mergeSchemaStep on_columns) st).names
        ∧ (l.foldl (mergeSchemaStep on_columns) st).names.Nodup
        ∧ (l.foldl (mergeSchemaStep on_columns) st).names.take st.names.length
            = st.names) := by
  intro l
  induction l with
  | nil =>
    intro st h1 h2
    exact ⟨h1, h2, List.take_length st.names⟩
  | cons c cs ih =>
    intro st h1 h2
    rw [List.foldl_cons]
    obtain ⟨s1, s2, s3⟩ := mergeSchemaStep_inv on_columns c st h1 h2
    obtain ⟨r1, r2, r3⟩ := ih (mergeSchemaStep on_columns st c) s1 s2
    refine ⟨r1, r2, ?_⟩
    have hle : st.names.length ≤ (mergeSchemaStep on_columns st c).names.length := by
      have := congrArg List.length s3
      simp only [List.length_take] at this
      omega
    calc (cs.foldl (mergeSchemaStep on_columns) (mergeSchemaStep on_columns st c)).names.take
          st.names.length
        = ((cs.foldl (mergeSchemaStep on_columns) (mergeSchemaStep on_columns st c)).names.take
            (mergeSchemaStep on_columns st c).names.length).take st.names.length := by
          rw [List.take_take, min_eq_left hle]
      _ = (mergeSchemaStep on_columns st c).names.take st.names.length := by rw [r3]
      _ = st.names := s3

/-- C6: for a valid merge (how among inner, left, right, outer, every key present in
    both tables), the result schema is the left columns first in their original order,
    followed by the renamed right non-key columns as computed by the schema fold
    (mergeSchema, whose collision rule appends the suffixes other, other1, other2 and
    so on to the name with an underscore); every key column appears exactly once in
    the result and no result column name is duplicated. -/
theorem C6_merge_result_schema (t other : Table) (keys : List String) (how : String)
    (hhow : how = "inner" ∨ how = "left" ∨ how = "right" ∨ how = "outer")
    (hmt : t.col_map = canonMap t.col_names)
    (hnt : t.col_names.Nodup)
    (hkeys : ∀ c ∈ keys, (t.col_map c).isSome = true ∧ (other.col_map c).isSome = true) :
    (merge t other keys how).isOk = true ∧
    okCols (merge t other keys how) = (mergeSchema t other keys).names ∧
    (okCols (merge t other keys how)).take t.col_names.length = t.col_names ∧
    (okCols (merge t other keys how)).Nodup ∧
    ∀ k ∈ keys, (okCols (merge t other keys how)).count k = 1 := by
  have hc : (["inner", "left", "right", "outer"].contains how) = true := by
    rcases hhow with rfl | rfl | rfl | rfl <;> decide
  have hv : (keys.all (fun c => (t.col_map c).isSome && (other.col_map c).isSome)) = true := by
    rw [List.all_eq_true]
    intro c hcm
    have := hkeys c hcm
    simp [this.1, this.2]
  have hok : okCols (merge t other keys how) = (mergeSchema t other keys).names := by
    unfold merge okCols
    simp only [hc, hv, Bool.not_true, Bool.false_eq_true, if_false, reduceIte]
  obtain ⟨i1, i2, i3⟩ := mergeSchemaFold_inv keys other.col_names
    { names := t.col_names, map := t.col_map, otherToNew := [], nonKey := 0 } hmt hnt
  refine ⟨?_, hok, ?_, ?_, ?_⟩
  · unfold merge
    simp only [hc, hv, Bool.not_true, Bool.false_eq_true, if_false, reduceIte]
    rfl
  · rw [hok]
    exact i3
  · rw [hok]
    exact i2
  · intro k hk
    rw [hok]
    apply List.count_eq_one_of_mem i2
    have hkt : k ∈ t.col_names := by
      have h := (hkeys k hk).1
      rw [hmt] at h
      exact (canonMap_isSome_iff _ _).mp h
    have hpre : k ∈ (mergeSchema t other keys).names.take t.col_names.length := by
      have h3 : (mergeSchema t other keys).names.take t.col_names.length = t.col_names := i3
      rw [h3]
      exact hkt
    exact List.mem_of_mem_take hpre

/-- C6 witness: merging two tables that share a non-key column name x, on the key k. -/
theorem C6_witness :
    (merge (mkTable ["k", "x"] []) (mkTable ["k", "x"] []) ["k"] "inner").isOk = true ∧
    okCols (merge (mkTable ["k", "x"] []) (mkTable ["k", "x"] []) ["k"] "inner")
      = (mergeSchema (mkTable ["k", "x"] []) (mkTable ["k", "x"] []) ["k"]).names ∧
    (okCols (merge (mkTable ["k", "x"] []) (mkTable ["k", "x"] []) ["k"] "inner")).take 2
      = ["k", "x"] ∧
    (okCols (merge (mkTable ["k", "x"] []) (mkTable ["k", "x"] []) ["k"] "inner")).Nodup ∧
    ∀ k ∈ ["k"],
      (okCols (merge (mkTable ["k", "x"] []) (mkTable ["k", "x"] []) ["k"] "inner")).count k = 1 :=
  C6_merge_result_schema (mkTable ["k", "x"] []) (mkTable ["k", "x"] []) ["k"] "inner"
    (by decide) rfl (by decide) (by decide)

end CSV

namespace CSV

example : okCols (merge (mkTable ["k", "x"] []) (mkTable ["k", "x"] []) ["k"] "inner")
    = ["k", "x", "x_other"] := by decide
example : okCols (merge (mkTable ["k", "x", "x_other"] []) (mkTable ["k", "x"] []) ["k"] "inner")
    = ["k", "x", "x_other", "x_other1"] := by decide

end CSV

namespace CSV

/-- The three invariants of the table claims: every row as long as the column-name
    sequence, the name-to-index mapping exactly the bijection sending the name at
    position i to i (canonMap), and pairwise-distinct column names. -/
def Wf (t : Table) : Prop :=
  (∀ r ∈ t.rows, r.length = t.col_names.length) ∧
  t.col_map = canonMap t.col_names ∧
  t.col_names.Nodup

/-- Well-formedness of one input file: pairwise-distinct header fields and no data
    line with more fields than the header. -/
def ReadOk (lines : List String) : Prop :=
  match lines with
  | [] => True
  | header :: rest =>
    (parseLineFields header).Nodup ∧
    ∀ l ∈ rest, (splitComma l).length ≤ (parseLineFields header).length

/-- Precondition on a read_file call under which the invariants survive: the file is
    well formed, and the receiving table is not in the columns-gone-but-rows-remain
    state (reachable through append_row on a fresh table or delete_column of the last
    column), in which the header adoption leaves the old short rows behind. -/
def ReadPre (t : Table) (lines : List String) : Prop :=
  ReadOk lines ∧ (t.col_names = [] → t.rows = [])

/-- Tables reachable from an empty table by the public operations of CSVTable.  The
    strict flag selects the amended claim: with strict = true every read_file call is
    required to satisfy ReadPre, with strict = false read_file may be applied to any
    input, as the original claim allows.  Fallible operations appear through okT: on
    the C++ exception path the table is unchanged (partial states of the multi-step
    operations are reachable as chains of the single-step constructors, and
    sort_by_column, whose comparator may throw out of std::sort leaving an unspecified
    permutation, is covered by the permutation constructor).  Cell writes through the
    proxy classes and apply_to_column are covered by write_cell and apply_to_column_w
    with an arbitrary cell transform. -/
inductive Reach : Bool → Table → Prop where
| empty (strict : Bool) : Reach strict emptyTable
| read (strict : Bool) (lines : List String) (t : Table) :
    Reach strict t → (strict = true → ReadPre t lines) →
    Reach strict (okT (read_file lines t) t)
| append_row_w (strict : Bool) (t : Table) (values : List Cell) :
    Reach strict t → Reach strict (append_row t values)
| add_column_w (strict : Bool) (t : Table) (name : String) (dflt : Cell) :
    Reach strict t → Reach strict (okT (add_column t name dflt) t)
| delete_column_w (strict : Bool) (t : Table) (name : String) :
    Reach strict t → Reach strict (okT (delete_column t name) t)
| delete_row_w (strict : Bool) (t : Table) (i : Nat) :
    Reach strict t → Reach strict (okT (delete_row t i) t)
| remove_rows_w (strict : Bool) (t : Table) (cond : List Cell → Bool) :
    Reach strict t → Reach strict (remove_rows t cond)
| sub_table_w (strict : Bool) (t : Table) (idx : List Nat) :
    Reach strict t → Reach strict (okT (sub_table t idx) t)
| dropna_w (strict : Bool) (t : Table) (columns : List String) :
    Reach strict t → Reach strict (okT (dropna t columns) t)
| fillna_w (strict : Bool) (t : Table) (columns : List String) (fill : Cell) :
    Reach strict t → Reach strict (okT (fillna t columns fill) t)
| drop_duplicates_w (strict : Bool) (t : Table) (columns : List String) :
    Reach strict t → Reach strict (okT (drop_duplicates t columns) t)
| keep_every_nth_w (strict : Bool) (t : Table) (n : Int) :
    Reach strict t → Reach strict (okT (keep_every_nth_row t n) t)
| rename_columns_w (strict : Bool) (t : Table) (pairs : List (String × String)) :
    Reach strict t → Reach strict (okT (rename_columns t pairs) t)
| append_table_w (strict : Bool) (t other : Table) :
    Reach strict t → Reach strict other → Reach strict (okT (append_table t other) t)
| merge_w (strict : Bool) (t other : Table) (keys : List String) (how : String) :
    Reach strict t → Reach strict other → Reach strict (okT (merge t other keys how) t)
| join_w (strict : Bool) (t other : Table) (how : String) :
    Reach strict t → Reach strict other → Reach strict (okT (join t other how) t)
| set_column_type_w (strict : Bool) (t : Table) (pt : String → Except String Cell)
    (conv : Cell → Except String Cell) (col : String) (skip : Bool) (dflt : Cell) :
    Reach strict t → Reach strict (okT (set_column_type_with pt conv t col skip dflt) t)
| set_column_to_value_w (strict : Bool) (t : Table) (col : String) (v : Cell) :
    Reach strict t → Reach strict (okT (set_column_to_value t col v) t)
| apply_to_column_w (strict : Bool) (t : Table) (col : String) (g : Cell → Cell) :
    Reach strict t → Reach strict (okT (apply_to_column_with t col g) t)
| sort_perm (strict : Bool) (t : Table) (rows2 : List (List Cell)) :
    Reach strict t → t.rows.Perm rows2 → Reach strict { t with rows := rows2 }
| write_cell (strict : Bool) (t : Table) (i j : Nat) (v : Cell) :
    Reach strict t →
    Reach strict { t with rows := t.rows.set i ((t.rows.getD i []).set j v) }

end CSV

namespace CSV

lemma nodup_append_sing (l : List String) (x : String) (h1 : l.Nodup) (h2 : x ∉ l) :
    (l ++ [x]).Nodup := by
  rw [List.nodup_append]
  refine ⟨h1, List.nodup_singleton _, ?_⟩
  intro a ha hb
  simp only [List.mem_singleton] at hb
  subst hb
  exact h2 ha

lemma length_foldl_preserve {β : Type} (step : List Cell → β → List Cell)
    (h : ∀ acc x, (step acc x).length = acc.length) :
    ∀ (l : List β) (init : List Cell), (l.foldl step init).length = init.length := by
  intro l
  induction l with
  | nil => intro init; rfl
  | cons c cs ih =>
    intro init
    rw [List.foldl_cons, ih, h]

lemma foldl_all_rows {β : Type} (P : List Cell → Prop)
    (step : List (List Cell) → β → List (List Cell))
    (hstep : ∀ acc x, (∀ r ∈ acc, P r) → ∀ r ∈ step acc x, P r) :
    ∀ (l : List β) (acc), (∀ r ∈ acc, P r) → ∀ r ∈ l.foldl step acc, P r := by
  intro l
  induction l with
  | nil => intro acc h; exact h
  | cons c cs ih =>
    intro acc h
    exact ih _ (hstep acc c h)

lemma canonMap_not_mem (names : List String) (n : String) (h : n ∉ names) :
    canonMap names n = none := by
  cases hcm : canonMap names n with
  | none => rfl
  | some k =>
    exfalso
    exact h ((canonMap_isSome_iff _ _).mp (by rw [hcm]; rfl))

lemma canonMap_head (c : String) (cs : List String) : canonMap (c :: cs) c = some 0 := by
  simp [canonMap]

lemma canonMap_cons_ne (c : String) (cs : List String) (n : String) (h : c ≠ n) :
    canonMap (c :: cs) n = (canonMap cs n).map (fun i => i + 1) := by
  simp [canonMap, h]

lemma canonMap_some_lt (names : List String) (n : String) :
    ∀ k, canonMap names n = some k → k < names.length := by
  induction names with
  | nil => intro k h; simp [canonMap] at h
  | cons c cs ih =>
    intro k h
    by_cases hc : c = n
    · subst hc
      rw [canonMap_head] at h
      injection h with h
      simp only [List.length_cons]
      omega
    · rw [canonMap_cons_ne c cs n hc] at h
      cases hcm : canonMap cs n with
      | none => rw [hcm] at h; simp at h
      | some j =>
        rw [hcm] at h
        simp only [show ∀ f : Nat → Nat, Option.map f (some j) = some (f j) from
          fun f => rfl] at h
        injection h with h
        have := ih j hcm
        simp only [List.length_cons]
        omega

lemma canonMap_cons_inv (c : String) (cs : List String) (name : String) (k : Nat)
    (hc : c ≠ name) (hk : canonMap (c :: cs) name = some k) :
    ∃ j, canonMap cs name = some j ∧ k = j + 1 := by
  rw [canonMap_cons_ne c cs name hc] at hk
  cases hcm : canonMap cs name with
  | none => rw [hcm] at hk; simp at hk
  | some j =>
    rw [hcm] at hk
    simp only [show ∀ f : Nat → Nat, Option.map f (some j) = some (f j) from
      fun f => rfl] at hk
    injection hk with hk
    exact ⟨j, rfl, hk.symm⟩

lemma canonMap_eraseIdx : ∀ (names : List String), names.Nodup →
    ∀ (name : String) (k : Nat), canonMap names name = some k →
    ∀ n, (if n = name then none
          else (canonMap names n).map (fun i => if k < i then i - 1 else i))
        = canonMap (names.eraseIdx k) n := by
  intro names
  induction names with
  | nil => intro _ name k hk; simp [canonMap] at hk
  | cons c cs ih =>
    intro hn name k hk n
    by_cases hc : c = name
    · subst hc
      rw [canonMap_head] at hk
      injection hk with hk
      subst hk
      simp only [List.eraseIdx_cons_zero]
      by_cases hn2 : n = c
      · subst hn2
        rw [if_pos rfl]
        exact (canonMap_not_mem cs n (List.nodup_cons.mp hn).1).symm
      · rw [if_neg hn2, canonMap_cons_ne c cs n (fun h => hn2 h.symm)]
        cases hcm : canonMap cs n with
        | none => simp
        | some v => simp
    · obtain ⟨j, hj, rfl⟩ := canonMap_cons_inv c cs name k hc hk
      rw [List.eraseIdx_cons_succ]
      by_cases hn2 : n = name
      · subst hn2
        rw [if_pos rfl]
        have hi := ih (List.nodup_cons.mp hn).2 n j hj n
        rw [if_pos rfl] at hi
        rw [canonMap_cons_ne c _ n hc, ← hi]
        rfl
      · rw [if_neg hn2]
        by_cases hn3 : n = c
        · subst hn3
          rw [canonMap_head, canonMap_head]
          rfl
        · rw [canonMap_cons_ne c cs n (fun h => hn3 h.symm),
            canonMap_cons_ne c _ n (fun h => hn3 h.symm)]
          have hi := ih (List.nodup_cons.mp hn).2 name j hj n
          rw [if_neg hn2] at hi
          rw [← hi]
          cases hcm : canonMap cs n with
          | none => simp
          | some v =>
            simp only [show ∀ (f : Nat → Nat) (x : Nat), Option.map f (some x) = some (f x)
              from fun f x => rfl]
            congr 1
            split_ifs <;> omega

lemma canonMap_set : ∀ (names : List String), names.Nodup →
    ∀ (oldName newName : String) (k : Nat), canonMap names oldName = some k →
    newName ∉ names →
    ∀ n, (if n = newName then some k else if n = oldName then none else canonMap names n)
        = canonMap (names.set k newName) n := by
  intro names
  induction names with
  | nil => intro _ o nn k hk; simp [canonMap] at hk
  | cons c cs ih =>
    intro hn o nn k hk hnew n
    have hcnn : c ≠ nn := fun hc => hnew (hc ▸ List.mem_cons_self c cs)
    have hnncs : nn ∉ cs := fun hm => hnew (List.mem_cons_of_mem c hm)
    by_cases hc : c = o
    · subst hc
      rw [canonMap_head] at hk
      injection hk with hk
      subst hk
      simp only [List.set_cons_zero]
      by_cases hn2 : n = nn
      · subst hn2
        rw [if_pos rfl, canonMap_head]
      · rw [if_neg hn2]
        by_cases hn3 : n = c
        · subst hn3
          rw [if_pos rfl, canonMap_cons_ne nn cs n (fun h => hn2 h.symm),
            canonMap_not_mem cs n (List.nodup_cons.mp hn).1]
          rfl
        · rw [if_neg hn3, canonMap_cons_ne c cs n (fun h => hn3 h.symm),
            canonMap_cons_ne nn _ n (fun h => hn2 h.symm)]
    · obtain ⟨j, hj, rfl⟩ := canonMap_cons_inv c cs o k hc hk
      rw [List.set_cons_succ]
      by_cases hn2 : n = nn
      · subst hn2
        rw [if_pos rfl, canonMap_cons_ne c _ n hcnn]
        have hi := ih (List.nodup_cons.mp hn).2 o n j hj hnncs n
        rw [if_pos rfl] at hi
        rw [← hi]
        rfl
      · rw [if_neg hn2]
        by_cases hn3 : n = o
        · subst hn3
          rw [if_pos rfl, canonMap_cons_ne c _ n hc]
          have hi := ih (List.nodup_cons.mp hn).2 n nn j hj hnncs n
          rw [if_neg hn2, if_pos rfl] at hi
          rw [← hi]
          rfl
        · rw [if_neg hn3]
          by_cases hn4 : n = c
          · subst hn4
            rw [canonMap_head, canonMap_head]
          · rw [canonMap_cons_ne c cs n (fun h => hn4 h.symm),
              canonMap_cons_ne c _ n (fun h => hn4 h.symm)]
            have hi := ih (List.nodup_cons.mp hn).2 o nn j hj hnncs n
            rw [if_neg hn2, if_neg hn3] at hi
            rw [← hi]

end CSV

namespace CSV

lemma wf_emptyTable : Wf emptyTable := by
  refine ⟨?_, rfl, ?_⟩
  · intro r hr
    simp [emptyTable] at hr
  · simp [emptyTable]

lemma wf_append_row (t : Table) (values : List Cell) (h : Wf t) : Wf (append_row t values) := by
  obtain ⟨h1, h2, h3⟩ := h
  unfold append_row
  refine ⟨?_, h2, h3⟩
  intro r hr
  dsimp only at hr ⊢
  simp only [List.mem_append, List.mem_singleton] at hr
  rcases hr with hr | hr
  · exact h1 r hr
  · subst hr
    simp only [List.length_take, List.length_append, List.length_replicate]
    omega

lemma wf_add_column (t : Table) (name : String) (dflt : Cell) (h : Wf t) :
    Wf (okT (add_column t name dflt) t) := by
  obtain ⟨h1, h2, h3⟩ := h
  unfold add_column
  by_cases hs : (t.col_map name).isSome
  · rw [if_pos hs]
    exact ⟨h1, h2, h3⟩
  · rw [if_neg hs]
    dsimp only [okT]
    have hnm : name ∉ t.col_names := by
      intro hmem
      exact hs (by rw [h2]; exact (canonMap_isSome_iff _ _).mpr hmem)
    refine ⟨?_, ?_, ?_⟩
    · intro r hr
      simp only [List.mem_map] at hr
      obtain ⟨r0, hr0, rfl⟩ := hr
      simp only [List.length_append, List.length_singleton, List.length_cons]
      rw [h1 r0 hr0]
      rfl
    · show mapInsert t.col_map name t.col_names.length = canonMap (t.col_names ++ [name])
      rw [h2]
      exact mapInsert_canonMap_append t.col_names name hnm
    · exact nodup_append_sing t.col_names name h3 hnm

lemma wf_delete_column (t : Table) (name : String) (h : Wf t) :
    Wf (okT (delete_column t name) t) := by
  obtain ⟨h1, h2, h3⟩ := h
  unfold delete_column
  cases hk : t.col_map name with
  | none => exact ⟨h1, h2, h3⟩
  | some k =>
    dsimp only [okT]
    have hkc : canonMap t.col_names name = some k := by rw [← h2]; exact hk
    have hklt := canonMap_some_lt t.col_names name k hkc
    refine ⟨?_, ?_, ?_⟩
    · intro r hr
      simp only [List.mem_map] at hr
      obtain ⟨r0, hr0, rfl⟩ := hr
      have hr0l := h1 r0 hr0
      rw [List.length_eraseIdx, List.length_eraseIdx]
      rw [hr0l]
    · funext n
      show (if n = name then none
        else (t.col_map n).map (fun i => if k < i then i - 1 else i))
          = canonMap (t.col_names.eraseIdx k) n
      rw [h2]
      exact canonMap_eraseIdx t.col_names h3 name k hkc n
    · exact (List.eraseIdx_sublist t.col_names k).nodup h3

lemma wf_delete_row (t : Table) (i : Nat) (h : Wf t) : Wf (okT (delete_row t i) t) := by
  obtain ⟨h1, h2, h3⟩ := h
  unfold delete_row
  by_cases hi : i < t.rows.length
  · rw [if_pos hi]
    dsimp only [okT]
    refine ⟨?_, h2, h3⟩
    intro r hr
    exact h1 r ((List.eraseIdx_sublist t.rows i).subset hr)
  · rw [if_neg hi]
    exact ⟨h1, h2, h3⟩

lemma wf_remove_rows (t : Table) (cond : List Cell → Bool) (h : Wf t) :
    Wf (remove_rows t cond) := by
  obtain ⟨h1, h2, h3⟩ := h
  refine ⟨?_, h2, h3⟩
  intro r hr
  exact h1 r (List.mem_of_mem_filter hr)

lemma wf_sub_table (t : Table) (idx : List Nat) (h : Wf t) : Wf (okT (sub_table t idx) t) := by
  obtain ⟨h1, h2, h3⟩ := h
  unfold sub_table
  by_cases hv : idx.all (fun i => decide (i < t.rows.length))
  · rw [if_pos hv]
    dsimp only [okT]
    refine ⟨?_, h2, h3⟩
    intro r hr
    simp only [List.mem_map] at hr
    obtain ⟨i, hi, rfl⟩ := hr
    have hilt : i < t.rows.length := by
      rw [List.all_eq_true] at hv
      simpa using hv i hi
    apply h1
    rw [List.getD_eq_getElem _ _ hilt]
    exact List.getElem_mem _
  · rw [if_neg hv]
    exact ⟨h1, h2, h3⟩

lemma wf_dropna (t : Table) (columns : List String) (h : Wf t) :
    Wf (okT (dropna t columns) t) := by
  obtain ⟨h1, h2, h3⟩ := h
  unfold dropna
  by_cases hv : (if columns.isEmpty then t.col_names else columns).all
      (fun c => (t.col_map c).isSome)
  · rw [if_pos hv]
    dsimp only [okT]
    refine ⟨?_, h2, h3⟩
    intro r hr
    exact h1 r (List.mem_of_mem_filter hr)
  · rw [if_neg hv]
    exact ⟨h1, h2, h3⟩

lemma wf_fillna1 (t : Table) (col : String) (fill : Cell) (h : Wf t) :
    Wf (okT (fillna1 t col fill) t) := by
  obtain ⟨h1, h2, h3⟩ := h
  unfold fillna1
  cases hk : t.col_map col with
  | none => exact ⟨h1, h2, h3⟩
  | some j =>
    dsimp only [okT]
    refine ⟨?_, h2, h3⟩
    intro r hr
    simp only [List.mem_map] at hr
    obtain ⟨r0, hr0, rfl⟩ := hr
    split_ifs
    · rw [List.length_set]
      exact h1 r0 hr0
    · exact h1 r0 hr0

lemma wf_fillna : ∀ (columns : List String) (t : Table) (fill : Cell), Wf t →
    Wf (okT (fillna t columns fill) t) := by
  intro columns
  induction columns with
  | nil => intro t fill h; exact h
  | cons c cs ih =>
    intro t fill h
    unfold fillna
    cases hf : fillna1 t c fill with
    | error e => exact h
    | ok t1 =>
      dsimp only
      have ht1 : Wf t1 := by
        have := wf_fillna1 t c fill h
        rw [hf] at this
        exact this
      have hrec := ih t1 fill ht1
      cases hr : fillna t1 cs fill with
      | error e => exact h
      | ok t2 =>
        rw [hr] at hrec
        exact hrec

lemma wf_drop_duplicates (t : Table) (columns : List String) (h : Wf t) :
    Wf (okT (drop_duplicates t columns) t) := by
  obtain ⟨h1, h2, h3⟩ := h
  unfold drop_duplicates
  by_cases hv : (if columns.isEmpty then t.col_names else columns).all
      (fun c => (t.col_map c).isSome)
  · rw [if_pos hv]
    dsimp only [okT]
    refine ⟨?_, h2, h3⟩
    intro r hr
    apply h1
    rw [dedupRows_eq] at hr
    have := firstOcc_mem _ (t.rows.filter _).length _ (Nat.le_refl _) r hr
    exact List.mem_of_mem_filter this
  · rw [if_neg hv]
    exact ⟨h1, h2, h3⟩

lemma wf_keep_every_nth (t : Table) (n : Int) (h : Wf t) :
    Wf (okT (keep_every_nth_row t n) t) := by
  obtain ⟨h1, h2, h3⟩ := h
  unfold keep_every_nth_row
  by_cases hn0 : n < 0
  · rw [if_pos hn0]
    exact ⟨h1, h2, h3⟩
  rw [if_neg hn0]
  by_cases hn1 : n = 0
  · rw [if_pos hn1]
    dsimp only [okT]
    refine ⟨?_, h2, h3⟩
    intro r hr
    simp at hr
  rw [if_neg hn1]
  by_cases hn2 : n = 1
  · rw [if_pos hn2]
    exact ⟨h1, h2, h3⟩
  rw [if_neg hn2]
  dsimp only [okT]
  refine ⟨?_, h2, h3⟩
  intro r hr
  apply h1
  rw [everyNth, everyNthAux_eq n.toNat (by omega) t.rows.length t.rows (Nat.le_refl _)] at hr
  obtain ⟨j, _, hj⟩ := List.mem_filterMap.mp hr
  exact List.getElem?_mem hj

end CSV

namespace CSV

lemma sctRows_lengths (pt : String → Except String Cell) (conv : Cell → Except String Cell)
    (skip : Bool) (dflt : Cell) (j : Nat) (L : Nat) :
    ∀ (rows rs2 : List (List Cell)),
      (∀ r ∈ rows, r.length = L) →
      sctRows pt conv skip dflt j rows = .ok rs2 →
      ∀ r2 ∈ rs2, r2.length = L := by
  intro rows
  induction rows with
  | nil =>
    intro rs2 _ hok
    cases hok
    intro r2 hr2
    simp at hr2
  | cons r rs ih =>
    intro rs2 hlen hok
    unfold sctRows at hok
    cases hc : sctCell pt conv skip dflt (r.getD j (.text "")) with
    | error e => rw [hc] at hok; cases hok
    | ok c =>
      rw [hc] at hok
      cases hrec : sctRows pt conv skip dflt j rs with
      | error e => rw [hrec] at hok; cases hok
      | ok rs3 =>
        rw [hrec] at hok
        cases hok
        intro r2 hr2
        rcases List.mem_cons.mp hr2 with h | h
        · subst h
          rw [List.length_set]
          exact hlen r (List.mem_cons_self r rs)
        · exact ih rs3 (fun x hx => hlen x (List.mem_cons_of_mem r hx)) hrec r2 h

lemma wf_set_column_type (pt : String → Except String Cell)
    (conv : Cell → Except String Cell) (t : Table) (col : String) (skip : Bool)
    (dflt : Cell) (h : Wf t) : Wf (okT (set_column_type_with pt conv t col skip dflt) t) := by
  obtain ⟨h1, h2, h3⟩ := h
  unfold set_column_type_with
  cases hk : t.col_map col with
  | none => exact ⟨h1, h2, h3⟩
  | some j =>
    dsimp only
    cases hs : sctRows pt conv skip dflt j t.rows with
    | error e => exact ⟨h1, h2, h3⟩
    | ok rs =>
      dsimp only [okT]
      exact ⟨sctRows_lengths pt conv skip dflt j t.col_names.length t.rows rs h1 hs, h2, h3⟩

lemma wf_set_column_to_value (t : Table) (col : String) (v : Cell) (h : Wf t) :
    Wf (okT (set_column_to_value t col v) t) := by
  obtain ⟨h1, h2, h3⟩ := h
  unfold set_column_to_value
  cases hk : t.col_map col with
  | none => exact ⟨h1, h2, h3⟩
  | some j =>
    dsimp only [okT]
    refine ⟨?_, h2, h3⟩
    intro r hr
    simp only [List.mem_map] at hr
    obtain ⟨r0, hr0, rfl⟩ := hr
    rw [List.length_set]
    exact h1 r0 hr0

lemma wf_apply_to_column (t : Table) (col : String) (g : Cell → Cell) (h : Wf t) :
    Wf (okT (apply_to_column_with t col g) t) := by
  obtain ⟨h1, h2, h3⟩ := h
  unfold apply_to_column_with
  cases hk : t.col_map col with
  | none => exact ⟨h1, h2, h3⟩
  | some j =>
    dsimp only [okT]
    refine ⟨?_, h2, h3⟩
    intro r hr
    simp only [List.mem_map] at hr
    obtain ⟨r0, hr0, rfl⟩ := hr
    rw [List.length_set]
    exact h1 r0 hr0

lemma wf_sort_perm (t : Table) (rows2 : List (List Cell)) (h : Wf t)
    (hp : t.rows.Perm rows2) : Wf { t with rows := rows2 } := by
  obtain ⟨h1, h2, h3⟩ := h
  exact ⟨fun r hr => h1 r (hp.mem_iff.mpr hr), h2, h3⟩

lemma wf_write_cell (t : Table) (i j : Nat) (v : Cell) (h : Wf t) :
    Wf { t with rows := t.rows.set i ((t.rows.getD i []).set j v) } := by
  obtain ⟨h1, h2, h3⟩ := h
  refine ⟨?_, h2, h3⟩
  intro r hr
  by_cases hi : i < t.rows.length
  · rcases List.mem_or_eq_of_mem_set hr with hm | hm
    · exact h1 r hm
    · subst hm
      rw [List.length_set, List.getD_eq_getElem _ _ hi]
      exact h1 _ (List.getElem_mem _)
  · rw [List.set_eq_of_length_le (Nat.le_of_not_lt hi)] at hr
    exact h1 r hr

lemma wf_rename_column1 (t : Table) (o nn : String) (h : Wf t) :
    Wf (okT (rename_column1 t o nn) t) := by
  obtain ⟨h1, h2, h3⟩ := h
  unfold rename_column1
  cases hk : t.col_map o with
  | none => exact ⟨h1, h2, h3⟩
  | some k =>
    dsimp only
    by_cases hs : (t.col_map nn).isSome
    · rw [if_pos hs]
      exact ⟨h1, h2, h3⟩
    · rw [if_neg hs]
      dsimp only [okT]
      have hkc : canonMap t.col_names o = some k := by rw [← h2]; exact hk
      have hnm : nn ∉ t.col_names := fun hmem =>
        hs (by rw [h2]; exact (canonMap_isSome_iff _ _).mpr hmem)
      refine ⟨?_, ?_, ?_⟩
      · intro r hr
        rw [List.length_set]
        exact h1 r hr
      · funext n
        show (if n = nn then some k else if n = o then none else t.col_map n)
            = canonMap (t.col_names.set k nn) n
        rw [h2]
        exact canonMap_set t.col_names h3 o nn k hkc hnm n
      · exact List.Nodup.set h3 hnm

lemma wf_rename_columns : ∀ (pairs : List (String × String)) (t : Table), Wf t →
    Wf (okT (rename_columns t pairs) t) := by
  intro pairs
  induction pairs with
  | nil => intro t h; exact h
  | cons p rest ih =>
    intro t h
    obtain ⟨o, nn⟩ := p
    unfold rename_columns
    cases hf : rename_column1 t o nn with
    | error e => exact h
    | ok t1 =>
      dsimp only
      have ht1 : Wf t1 := by
        have := wf_rename_column1 t o nn h
        rw [hf] at this
        exact this
      have hrec := ih t1 ht1
      cases hr : rename_columns t1 rest with
      | error e => exact h
      | ok t2 =>
        rw [hr] at hrec
        exact hrec

lemma wf_append_table (t other : Table) (h : Wf t) (ho : Wf other) :
    Wf (okT (append_table t other) t) := by
  obtain ⟨h1, h2, h3⟩ := h
  obtain ⟨g1, g2, g3⟩ := ho
  unfold append_table
  by_cases he : other.col_names.isEmpty
  · rw [if_pos he]
    exact ⟨h1, h2, h3⟩
  rw [if_neg he]
  by_cases htn : t.col_names.isEmpty
  · rw [if_pos htn]
    dsimp only [okT]
    exact ⟨g1, g2, g3⟩
  rw [if_neg htn]
  by_cases heq : t.col_names = other.col_names
  · rw [if_pos heq]
    dsimp only [okT]
    refine ⟨?_, h2, h3⟩
    intro r hr
    rcases List.mem_append.mp hr with hr | hr
    · exact h1 r hr
    · rw [heq]
      exact g1 r hr
  · rw [if_neg heq]
    exact ⟨h1, h2, h3⟩

end CSV
namespace CSV

lemma buildMapFrom_canon : ∀ (names pre : List String) (m : String → Option Nat),
    (pre ++ names).Nodup → m = canonMap pre →
    buildMapFrom m names pre.length = canonMap (pre ++ names) := by
  intro names
  induction names with
  | nil =>
    intro pre m _ hm
    simpa [buildMapFrom] using hm
  | cons c cs ih =>
    intro pre m hn hm
    have hcpre : c ∉ pre := by
      rw [List.nodup_append] at hn
      exact fun hc => hn.2.2 hc (List.mem_cons_self c cs)
    have step : mapInsert m c pre.length = canonMap (pre ++ [c]) := by
      rw [hm]
      exact mapInsert_canonMap_append pre c hcpre
    have hnodup : ((pre ++ [c]) ++ cs).Nodup := by
      simpa [List.append_assoc] using hn
    have hrec := ih (pre ++ [c]) (mapInsert m c pre.length) hnodup step
    have hlen : (pre ++ [c]).length = pre.length + 1 := by simp
    rw [hlen] at hrec
    show buildMapFrom (mapInsert m c pre.length) cs (pre.length + 1) = _
    rw [hrec]
    simp [List.append_assoc]

lemma wf_read_file (t : Table) (lines : List String) (h : Wf t)
    (hpre : ReadPre t lines) : Wf (okT (read_file lines t) t) := by
  obtain ⟨h1, h2, h3⟩ := h
  obtain ⟨hok, hempty⟩ := hpre
  cases lines with
  | nil => exact ⟨h1, h2, h3⟩
  | cons header rest =>
    have hok2 : (parseLineFields header).Nodup ∧
        ∀ l ∈ rest, (splitComma l).length ≤ (parseLineFields header).length := hok
    obtain ⟨hnodup, hbound⟩ := hok2
    unfold read_file
    dsimp only
    by_cases htE : t.col_names.isEmpty
    · rw [if_pos htE]
      have hcn : t.col_names = [] := List.isEmpty_iff.mp htE
      have hrows : t.rows = [] := hempty hcn
      dsimp only [okT]
      refine ⟨?_, ?_, hnodup⟩
      · intro r hr
        dsimp only at hr
        rw [hrows] at hr
        simp only [List.nil_append, List.mem_map] at hr
        obtain ⟨line, hline, rfl⟩ := hr
        simp only [List.length_append, List.length_replicate, List.length_map]
        have hb := hbound line hline
        simp only [parseLineFields, List.length_map] at hb ⊢
        omega
      · show buildMapFrom t.col_map (parseLineFields header) 0
            = canonMap (parseLineFields header)
        have hb := buildMapFrom_canon (parseLineFields header) [] t.col_map
          (by simpa using hnodup) (by rw [h2, hcn])
        simpa using hb
    · rw [if_neg htE]
      by_cases heq : parseLineFields header = t.col_names
      · rw [if_pos heq]
        dsimp only [okT]
        refine ⟨?_, h2, h3⟩
        intro r hr
        dsimp only at hr
        rcases List.mem_append.mp hr with hr | hr
        · exact h1 r hr
        · simp only [List.mem_map] at hr
          obtain ⟨line, hline, rfl⟩ := hr
          simp only [List.length_append, List.length_replicate, List.length_map]
          have hb := hbound line hline
          rw [← heq]
          simp only [parseLineFields, List.length_map] at hb ⊢
          omega
      · rw [if_neg heq]
        exact ⟨h1, h2, h3⟩

end CSV
namespace CSV

lemma mergeMatchedRow_length (t other : Table) (sc : MergeSchema)
    (on_columns : List String) (lrow orow : List Cell) :
    (mergeMatchedRow t other sc on_columns lrow orow).length = sc.names.length := by
  unfold mergeMatchedRow
  dsimp only
  rw [length_foldl_preserve, length_foldl_preserve, List.length_replicate]
  · intro acc c
    rw [List.length_set]
  · intro acc i
    split_ifs
    · rfl
    · rw [List.length_set]

lemma mergeUnmatchedRow_length (t : Table) (sc : MergeSchema)
    (on_columns : List String) (lrow : List Cell) :
    (mergeUnmatchedRow t sc on_columns lrow).length = sc.names.length := by
  unfold mergeUnmatchedRow
  dsimp only
  rw [length_foldl_preserve, length_foldl_preserve, List.length_replicate]
  · intro acc c
    rw [List.length_set]
  · intro acc i
    rw [List.length_set]

lemma mergeRightRow_length (t other : Table) (sc : MergeSchema)
    (on_columns : List String) (orow : List Cell) :
    (mergeRightRow t other sc on_columns orow).length = sc.names.length := by
  unfold mergeRightRow
  dsimp only
  rw [length_foldl_preserve, length_foldl_preserve, length_foldl_preserve,
    List.length_replicate]
  · intro acc c
    rw [List.length_set]
  · intro acc c
    split_ifs
    · rfl
    · rw [List.length_set]
  · intro acc i
    split_ifs
    · rfl
    · rw [List.length_set]

lemma wf_merge (t other : Table) (keys : List String) (how : String) (h : Wf t) :
    Wf (okT (merge t other keys how) t) := by
  obtain ⟨h1, h2, h3⟩ := h
  unfold merge
  cases hc : (["inner", "left", "right", "outer"].contains how) with
  | false =>
    simp only [Bool.not_false, if_true, reduceIte]
    exact ⟨h1, h2, h3⟩
  | true =>
    cases hv : (keys.all (fun c => (t.col_map c).isSome && (other.col_map c).isSome)) with
    | false =>
      simp only [Bool.not_true, Bool.not_false, Bool.false_eq_true, if_false, if_true,
        reduceIte]
      exact ⟨h1, h2, h3⟩
    | true =>
      simp only [Bool.not_true, Bool.false_eq_true, if_false, reduceIte]
      dsimp only [okT]
      obtain ⟨i1, i2, _⟩ := mergeSchemaFold_inv keys other.col_names
        { names := t.col_names, map := t.col_map, otherToNew := [], nonKey := 0 } h2 h3
      refine ⟨?_, i1, i2⟩
      intro r hr
      rcases List.mem_append.mp hr with hr | hr
      · by_cases hlp : how = "inner" ∨ how = "left" ∨ how = "outer"
        case neg =>
          rw [if_neg hlp] at hr
          simp at hr
        rw [if_pos hlp] at hr
        refine foldl_all_rows (fun r => r.length = (mergeSchema t other keys).names.length)
          _ ?_ _ [] (by intro r hx; simp at hx) r hr
        intro acc kb hacc r2 hr2
        cases hl : lookupBucket (buildBuckets (rowKey other.col_map keys) other.rows) kb.1 with
        | some oidx =>
          rw [hl] at hr2
          refine foldl_all_rows (fun r => r.length = (mergeSchema t other keys).names.length)
            _ ?_ _ acc hacc r2 hr2
          intro a li ha r3 hr3
          rcases List.mem_append.mp hr3 with hr3 | hr3
          · exact ha r3 hr3
          · simp only [List.mem_map] at hr3
            obtain ⟨oi, _, rfl⟩ := hr3
            exact mergeMatchedRow_length t other (mergeSchema t other keys) keys _ _
        | none =>
          rw [hl] at hr2
          by_cases hi : how = "inner"
          · rw [if_pos hi] at hr2
            exact hacc r2 hr2
          · rw [if_neg hi] at hr2
            rcases List.mem_append.mp hr2 with hr2 | hr2
            · exact hacc r2 hr2
            · simp only [List.mem_map] at hr2
              obtain ⟨li, _, rfl⟩ := hr2
              exact mergeUnmatchedRow_length t (mergeSchema t other keys) keys _
      · by_cases hrp : how = "right" ∨ how = "outer"
        case neg =>
          rw [if_neg hrp] at hr
          simp at hr
        rw [if_pos hrp] at hr
        refine foldl_all_rows (fun r => r.length = (mergeSchema t other keys).names.length)
          _ ?_ _ [] (by intro r hx; simp at hx) r hr
        intro acc kb hacc r2 hr2
        by_cases hcnd : ((lookupBucket (buildBuckets (rowKey t.col_map keys) t.rows) kb.1).isSome
            && how != "outer") = true
        · rw [if_pos hcnd] at hr2
          exact hacc r2 hr2
        · rw [if_neg hcnd] at hr2
          rcases List.mem_append.mp hr2 with hr2 | hr2
          · exact hacc r2 hr2
          · simp only [List.mem_map] at hr2
            obtain ⟨oi, _, rfl⟩ := hr2
            exact mergeRightRow_length t other (mergeSchema t other keys) keys _

end CSV
namespace CSV

lemma join_base_fst (cmap : String → Option Nat) :
    ∀ (l : List String) (acc : List String × List (Nat × Nat)),
      (l.foldl (fun acc col => (acc.1 ++ [col], acc.2 ++ [(0, (cmap col).getD 0)])) acc).1
        = acc.1 ++ l := by
  intro l
  induction l with
  | nil => intro acc; simp
  | cons c cs ih =>
    intro acc
    rw [List.foldl_cons, ih]
    simp

lemma join_other_fst_nodup (cmap : String → Option Nat) :
    ∀ (l : List String) (acc : List String × List (Nat × Nat)), acc.1.Nodup →
      (l.foldl (fun acc col =>
        let nn := freshLoop (fun n => acc.1.contains n) col (acc.1.length + 1) 0
        (acc.1 ++ [nn], acc.2 ++ [(1, (cmap col).getD 0)])) acc).1.Nodup := by
  intro l
  induction l with
  | nil => intro acc h; exact h
  | cons c cs ih =>
    intro acc h
    rw [List.foldl_cons]
    apply ih
    dsimp only
    obtain ⟨i, hi, hfree⟩ := exists_not_mem_cand acc.1 c
    have hnn : acc.1.contains (freshLoop (fun n => acc.1.contains n) c (acc.1.length + 1) 0)
        = false :=
      freshLoop_not_taken (fun n => acc.1.contains n) c (acc.1.length + 1) 0
        ⟨i, by omega, by omega, by
          show acc.1.contains (candName c i) = false
          rw [Bool.eq_false_iff]
          intro hcont
          exact hfree (List.mem_of_elem_eq_true hcont)⟩
    refine nodup_append_sing _ _ h ?_
    intro hmem
    have hc2 : acc.1.contains (freshLoop (fun n => acc.1.contains n) c (acc.1.length + 1) 0)
        = true := List.elem_eq_true_of_mem hmem
    rw [hnn] at hc2
    exact Bool.false_ne_true hc2

lemma join_other_fst_len (cmap : String → Option Nat) :
    ∀ (l : List String) (acc : List String × List (Nat × Nat)),
      (l.foldl (fun acc col =>
        let nn := freshLoop (fun n => acc.1.contains n) col (acc.1.length + 1) 0
        (acc.1 ++ [nn], acc.2 ++ [(1, (cmap col).getD 0)])) acc).1.length
        = acc.1.length + l.length := by
  intro l
  induction l with
  | nil => intro acc; simp
  | cons c cs ih =>
    intro acc
    rw [List.foldl_cons, ih]
    dsimp only
    simp only [List.length_append, List.length_cons, List.length_nil]
    omega

lemma wf_join (t other : Table) (how : String) (h : Wf t) :
    Wf (okT (join t other how) t) := by
  obtain ⟨h1, h2, h3⟩ := h
  cases hc : (["inner", "left", "right", "outer"].contains how) with
  | false =>
    unfold join
    rw [hc]
    simp only [Bool.not_false, if_true, reduceIte]
    exact ⟨h1, h2, h3⟩
  | true =>
    unfold join
    rw [hc]
    simp only [Bool.not_true, Bool.false_eq_true, if_false, reduceIte]
    dsimp only [okT]
    have hndB : (t.col_names.foldl (fun acc col =>
        (acc.1 ++ [col], acc.2 ++ [(0, (t.col_map col).getD 0)]))
        (([], []) : List String × List (Nat × Nat))).1.Nodup := by
      rw [join_base_fst]
      simpa using h3
    have hndP : (other.col_names.foldl (fun acc col =>
        let nn := freshLoop (fun n => acc.1.contains n) col (acc.1.length + 1) 0
        (acc.1 ++ [nn], acc.2 ++ [(1, (other.col_map col).getD 0)]))
        (t.col_names.foldl (fun acc col =>
          (acc.1 ++ [col], acc.2 ++ [(0, (t.col_map col).getD 0)]))
          (([], []) : List String × List (Nat × Nat)))).1.Nodup :=
      join_other_fst_nodup other.col_map other.col_names _ hndB
    refine ⟨?_, buildMapFrom_canon _ [] (canonMap []) hndP rfl, hndP⟩
    intro r hr
    simp only [List.mem_map] at hr
    obtain ⟨i, _, rfl⟩ := hr
    dsimp only
    rw [List.length_map, join_other_snd, join_base_snd, join_other_fst_len, join_base_fst]
    simp

end CSV
namespace CSV

lemma reach_wf : ∀ (b : Bool) (t : Table), Reach b t → b = true → Wf t := by
  intro b t h
  induction h with
  | empty => intro _; exact wf_emptyTable
  | read lines t hr hpre ih =>
    intro hb
    exact wf_read_file t lines (ih hb) (hpre hb)
  | append_row_w t values hr ih =>
    intro hb
    exact wf_append_row t values (ih hb)
  | add_column_w t name dflt hr ih =>
    intro hb
    exact wf_add_column t name dflt (ih hb)
  | delete_column_w t name hr ih =>
    intro hb
    exact wf_delete_column t name (ih hb)
  | delete_row_w t i hr ih =>
    intro hb
    exact wf_delete_row t i (ih hb)
  | remove_rows_w t cond hr ih =>
    intro hb
    exact wf_remove_rows t cond (ih hb)
  | sub_table_w t idx hr ih =>
    intro hb
    exact wf_sub_table t idx (ih hb)
  | dropna_w t columns hr ih =>
    intro hb
    exact wf_dropna t columns (ih hb)
  | fillna_w t columns fill hr ih =>
    intro hb
    exact wf_fillna columns t fill (ih hb)
  | drop_duplicates_w t columns hr ih =>
    intro hb
    exact wf_drop_duplicates t columns (ih hb)
  | keep_every_nth_w t n hr ih =>
    intro hb
    exact wf_keep_every_nth t n (ih hb)
  | rename_columns_w t pairs hr ih =>
    intro hb
    exact wf_rename_columns pairs t (ih hb)
  | append_table_w t other hr hro ih iho =>
    intro hb
    exact wf_append_table t other (ih hb) (iho hb)
  | merge_w t other keys how hr hro ih iho =>
    intro hb
    exact wf_merge t other keys how (ih hb)
  | join_w t other how hr hro ih iho =>
    intro hb
    exact wf_join t other how (ih hb)
  | set_column_type_w t pt conv col skip dflt hr ih =>
    intro hb
    exact wf_set_column_type pt conv t col skip dflt (ih hb)
  | set_column_to_value_w t col v hr ih =>
    intro hb
    exact wf_set_column_to_value t col v (ih hb)
  | apply_to_column_w t col g hr ih =>
    intro hb
    exact wf_apply_to_column t col g (ih hb)
  | sort_perm t rows2 hr hperm ih =>
    intro hb
    exact wf_sort_perm t rows2 (ih hb) hperm
  | write_cell t i j v hr ih =>
    intro hb
    exact wf_write_cell t i j v (ih hb)

/-- C1 (amended): for every table reachable from the empty table by the public
    operations where each read_file call gets a well-formed file (distinct header
    fields, no data line wider than the header) and a receiver that has rows only if
    it has columns (Reach true), every row is exactly as long as the column-name
    sequence, the name-to-index map is exactly the canonical position bijection, and
    the column names are pairwise distinct.  The original claim, which allows
    read_file on arbitrary input, is refuted by
    C1_read_file_unrestricted_breaks_invariants. -/
theorem C1_reachable_invariants (t : Table) (h : Reach true t) : Wf t :=
  reach_wf true t h rfl

/-- C1 witness: the table read from the two-line file "a,b" / "1,2" starting empty
    is reachable under the read_file restrictions and satisfies the invariants. -/
theorem C1_witness : Wf (okT (read_file ["a,b", "1,2"] emptyTable) emptyTable) :=
  C1_reachable_invariants (okT (read_file ["a,b", "1,2"] emptyTable) emptyTable)
    (Reach.read true ["a,b", "1,2"] emptyTable (Reach.empty true)
      (fun _ => ⟨⟨by decide, by decide⟩, fun _ => rfl⟩))

/-- C1 counterexample to the original claim (read_file on arbitrary input): an
    overlong data line leaves a 2-cell row in a 1-column table; a duplicate header
    breaks both distinctness and the bijection (the map sends "a" to 1, the canonical
    bijection to 0); and even a well-formed file breaks the row-length invariant when
    the receiving table has a row but no columns (reachable by append_row on the
    empty table). -/
theorem C1_read_file_unrestricted_breaks_invariants :
    (Reach false (okT (read_file ["a", "1,2"] emptyTable) emptyTable) ∧
      ¬ Wf (okT (read_file ["a", "1,2"] emptyTable) emptyTable)) ∧
    (Reach false (okT (read_file ["a,a"] emptyTable) emptyTable) ∧
      ¬ Wf (okT (read_file ["a,a"] emptyTable) emptyTable) ∧
      (okT (read_file ["a,a"] emptyTable) emptyTable).col_map "a" = some 1 ∧
      canonMap ((okT (read_file ["a,a"] emptyTable) emptyTable).col_names) "a" = some 0) ∧
    (Reach false (okT (read_file ["a"] (append_row emptyTable []))
        (append_row emptyTable [])) ∧
      ¬ Wf (okT (read_file ["a"] (append_row emptyTable []))
        (append_row emptyTable []))) := by
  refine ⟨⟨?_, ?_⟩, ⟨?_, ?_, ?_, ?_⟩, ⟨?_, ?_⟩⟩
  · exact Reach.read false ["a", "1,2"] emptyTable (Reach.empty false)
      (fun h => Bool.noConfusion h)
  · intro hwf
    exact absurd (hwf.1 [Cell.i32 1, Cell.i32 2] (by decide)) (by decide)
  · exact Reach.read false ["a,a"] emptyTable (Reach.empty false)
      (fun h => Bool.noConfusion h)
  · intro hwf
    exact absurd hwf.2.2 (by decide)
  · decide
  · decide
  · exact Reach.read false ["a"] (append_row emptyTable [])
      (Reach.append_row_w false emptyTable [] (Reach.empty false))
      (fun h => Bool.noConfusion h)
  · intro hwf
    exact absurd (hwf.1 [] (by decide)) (by decide)

end CSV
namespace CSV

/-- The ten decimal digit characters, the alphabet of the decimal printer. -/
def digits10 : List Char := ['0', '1', '2', '3', '4', '5', '6', '7', '8', '9']

lemma digitChar_mem (n : Nat) : digitChar n ∈ digits10 := by
  unfold digitChar
  split <;> decide

lemma natDigitsAux_mem : ∀ (fuel n : Nat) (acc : List Char),
    (∀ c ∈ acc, c ∈ digits10) → ∀ c ∈ natDigitsAux fuel n acc, c ∈ digits10 := by
  intro fuel
  induction fuel with
  | zero =>
    intro n acc hacc c hc
    rcases List.mem_cons.mp hc with rfl | h
    · exact digitChar_mem n
    · exact hacc c h
  | succ f ih =>
    intro n acc hacc c hc
    unfold natDigitsAux at hc
    by_cases hn : n < 10
    · rw [if_pos hn] at hc
      rcases List.mem_cons.mp hc with rfl | h
      · exact digitChar_mem n
      · exact hacc c h
    · rw [if_neg hn] at hc
      refine ih (n / 10) _ ?_ c hc
      intro c2 hc2
      rcases List.mem_cons.mp hc2 with rfl | h
      · exact digitChar_mem _
      · exact hacc c2 h

lemma natDigits_mem (n : Nat) : ∀ c ∈ natDigits n, c ∈ digits10 :=
  natDigitsAux_mem n n [] (by intro c hc; simp at hc)

lemma digit_isDigit (c : Char) (h : c ∈ digits10) : c.isDigit = true := by
  fin_cases h <;> decide

lemma skipWs_digit (c : Char) (h : c ∈ digits10) (cs : List Char) :
    skipWs (c :: cs) = (0, c :: cs) := by
  fin_cases h <;> rfl

lemma takeSign_digit (c : Char) (h : c ∈ digits10) (cs : List Char) :
    takeSign (c :: cs) = (1, 0, c :: cs) := by
  fin_cases h <;> rfl

lemma takeDigits_all (ds : List Char) (h : ∀ c ∈ ds, c ∈ digits10) :
    takeDigits ds = (ds, []) := by
  induction ds with
  | nil => rfl
  | cons c cs ih =>
    have hc : c.isDigit = true := digit_isDigit c (h c (List.mem_cons_self c cs))
    have ihs := ih (fun x hx => h x (List.mem_cons_of_mem c hx))
    simp [takeDigits, hc, ihs]

lemma takeDigits_append (ds : List Char) (h : ∀ c ∈ ds, c ∈ digits10) (c0 : Char)
    (hc0 : c0.isDigit = false) (r : List Char) :
    takeDigits (ds ++ c0 :: r) = (ds, c0 :: r) := by
  induction ds with
  | nil => simp [takeDigits, hc0]
  | cons c cs ih =>
    have hc : c.isDigit = true := digit_isDigit c (h c (List.mem_cons_self c cs))
    have ihs := ih (fun x hx => h x (List.mem_cons_of_mem c hx))
    simp [takeDigits, hc, ihs]

lemma natDigits_ne_nil (n : Nat) : natDigits n ≠ [] := by
  unfold natDigits
  exact natDigitsAux_ne_nil n n []

lemma digits_string_ne (ds : List Char) (h : ∀ c ∈ ds, c ∈ digits10) (hne : ds ≠ [])
    (t : String) (c0 : Char) (r : List Char) (ht : t.data = c0 :: r)
    (hc0 : c0 ∉ digits10) : String.mk ds ≠ t := by
  intro he
  have hd : ds = c0 :: r := by
    have h2 : ds = t.data := congrArg String.data he
    rw [ht] at h2
    exact h2
  exact hc0 (h c0 (hd ▸ List.mem_cons_self c0 r))

lemma digits_string_ne_empty (ds : List Char) (hne : ds ≠ []) : String.mk ds ≠ "" := by
  intro he
  have hd : ds = [] := congrArg String.data he
  exact hne hd

lemma cons_string_ne (c : Char) (ds : List Char) (t : String) (c0 : Char) (r : List Char)
    (ht : t.data = c0 :: r) (hne : c ≠ c0) : String.mk (c :: ds) ≠ t := by
  intro he
  have hd : c :: ds = c0 :: r := by
    have h2 : c :: ds = t.data := congrArg String.data he
    rw [ht] at h2
    exact h2
  exact hne (List.head_eq_of_cons_eq hd)

end CSV
namespace CSV

lemma data_mk (l : List Char) : (String.mk l).data = l := rfl

lemma skipWs_dash (cs : List Char) : skipWs ('-' :: cs) = (0, '-' :: cs) := rfl

lemma takeSign_dash (cs : List Char) : takeSign ('-' :: cs) = (-1, 1, cs) := rfl

lemma stoi_digits (c : Char) (tl : List Char) (h : ∀ x ∈ c :: tl, x ∈ digits10)
    (hrange : (digitsVal (c :: tl) : Int) ≤ i32max) :
    stoi (String.mk (c :: tl)) = some ((digitsVal (c :: tl) : Int), (c :: tl).length) := by
  have hc := h c (List.mem_cons_self c tl)
  simp only [stoi, data_mk, skipWs_digit c hc tl, takeSign_digit c hc tl,
    takeDigits_all (c :: tl) h, List.isEmpty_cons, Bool.false_eq_true, if_false, reduceIte]
  split_ifs with hx
  · exfalso
    have hnn : (0 : Int) ≤ (digitsVal (c :: tl) : Int) := Int.natCast_nonneg _
    have hm : i32min < 0 := by decide
    rcases hx with hlt | hgt
    · rw [one_mul] at hlt
      omega
    · rw [one_mul] at hgt
      omega
  · simp

lemma stoi_digits_large (c : Char) (tl : List Char) (h : ∀ x ∈ c :: tl, x ∈ digits10)
    (hrange : i32max < (digitsVal (c :: tl) : Int)) :
    stoi (String.mk (c :: tl)) = none := by
  have hc := h c (List.mem_cons_self c tl)
  simp only [stoi, data_mk, skipWs_digit c hc tl, takeSign_digit c hc tl,
    takeDigits_all (c :: tl) h, List.isEmpty_cons, Bool.false_eq_true, if_false, reduceIte]
  split_ifs with hx
  · rfl
  · exfalso
    push_neg at hx
    rw [one_mul] at hx
    omega

lemma stoi_neg_digits (c : Char) (tl : List Char) (h : ∀ x ∈ c :: tl, x ∈ digits10)
    (hrange : i32min ≤ -(digitsVal (c :: tl) : Int)) :
    stoi (String.mk ('-' :: c :: tl))
      = some (-(digitsVal (c :: tl) : Int), (c :: tl).length + 1) := by
  simp only [stoi, data_mk, skipWs_dash, takeSign_dash,
    takeDigits_all (c :: tl) h, List.isEmpty_cons, Bool.false_eq_true, if_false, reduceIte]
  split_ifs with hx
  · exfalso
    have hnn : (0 : Int) ≤ (digitsVal (c :: tl) : Int) := Int.natCast_nonneg _
    have hm : (0 : Int) < i32max := by decide
    rcases hx with hlt | hgt
    · rw [neg_one_mul] at hlt
      omega
    · rw [neg_one_mul] at hgt
      omega
  · simp only [Option.some.injEq, Prod.mk.injEq]
    constructor
    · ring
    · omega

lemma stoull_digits (c : Char) (tl : List Char) (h : ∀ x ∈ c :: tl, x ∈ digits10)
    (hrange : digitsVal (c :: tl) < u64mod) :
    stoull (String.mk (c :: tl)) = some (digitsVal (c :: tl), (c :: tl).length) := by
  have hc := h c (List.mem_cons_self c tl)
  simp only [stoull, data_mk, skipWs_digit c hc tl, takeSign_digit c hc tl,
    takeDigits_all (c :: tl) h, List.isEmpty_cons, Bool.false_eq_true, if_false, reduceIte]
  rw [if_neg (by omega)]
  rw [if_neg (by decide)]
  simp

end CSV
namespace CSV

lemma head_not_sentinel (c : Char) (hc : c ∈ '-' :: digits10) (tl : List Char) :
    ¬(String.mk (c :: tl) = "" ∨ String.mk (c :: tl) = "NA" ∨ String.mk (c :: tl) = "NaN"
        ∨ String.mk (c :: tl) = "#N/A")
      ∧ String.mk (c :: tl) ≠ "true" ∧ String.mk (c :: tl) ≠ "false" := by
  refine ⟨?_, ?_, ?_⟩
  · rintro (he | he | he | he)
    · exact digits_string_ne_empty _ (List.cons_ne_nil c tl) he
    · exact cons_string_ne c tl "NA" 'N' ['A'] rfl (by fin_cases hc <;> decide) he
    · exact cons_string_ne c tl "NaN" 'N' ['a', 'N'] rfl (by fin_cases hc <;> decide) he
    · exact cons_string_ne c tl "#N/A" '#' ['N', '/', 'A'] rfl (by fin_cases hc <;> decide) he
  · exact cons_string_ne c tl "true" 't' ['r', 'u', 'e'] rfl (by fin_cases hc <;> decide)
  · exact cons_string_ne c tl "false" 'f' ['a', 'l', 's', 'e'] rfl (by fin_cases hc <;> decide)

lemma natDigits_dest (n : Nat) : ∃ c tl, natDigits n = c :: tl := by
  cases hnd : natDigits n with
  | nil => exact absurd hnd (natDigits_ne_nil n)
  | cons c tl => exact ⟨c, tl, rfl⟩

lemma parse_cell_natRepr_small (n : Nat) (h : (n : Int) ≤ i32max) :
    parse_cell (natRepr n) = .i32 (n : Int) := by
  obtain ⟨c, tl, hds⟩ := natDigits_dest n
  have hmem : ∀ x ∈ c :: tl, x ∈ digits10 := by rw [← hds]; exact natDigits_mem n
  have hval : digitsVal (c :: tl) = n := by rw [← hds]; exact digitsVal_natDigits n
  have hsent := head_not_sentinel c
    (List.mem_cons_of_mem '-' (hmem c (List.mem_cons_self c tl))) tl
  unfold natRepr
  rw [hds]
  unfold parse_cell
  rw [if_neg hsent.1, if_neg hsent.2.1, if_neg hsent.2.2]
  rw [stoi_digits c tl hmem (by rw [hval]; exact h)]
  dsimp only
  rw [if_pos (show (c :: tl).length = (String.mk (c :: tl)).length from rfl), hval]

lemma parse_cell_intRepr (v : Int) (h1 : i32min ≤ v) (h2 : v ≤ i32max) :
    parse_cell (intRepr v) = .i32 v := by
  by_cases hv : v < 0
  · unfold intRepr
    rw [if_pos hv]
    obtain ⟨c, tl, hds⟩ := natDigits_dest v.natAbs
    have hmem : ∀ x ∈ c :: tl, x ∈ digits10 := by rw [← hds]; exact natDigits_mem v.natAbs
    have hval : digitsVal (c :: tl) = v.natAbs := by
      rw [← hds]; exact digitsVal_natDigits v.natAbs
    have hsent := head_not_sentinel '-' (List.mem_cons_self _ _) (c :: tl)
    rw [hds]
    unfold parse_cell
    rw [if_neg hsent.1, if_neg hsent.2.1, if_neg hsent.2.2]
    rw [stoi_neg_digits c tl hmem (by rw [hval]; simp only [i32min] at h1 ⊢; omega)]
    dsimp only
    rw [if_pos (show (c :: tl).length + 1 = (String.mk ('-' :: c :: tl)).length from rfl), hval]
    congr 1
    omega
  · unfold intRepr
    rw [if_neg hv]
    have hn : ((v.toNat : Nat) : Int) ≤ i32max := by
      rw [Int.toNat_of_nonneg (by omega)]
      exact h2
    rw [parse_cell_natRepr_small v.toNat hn]
    congr 1
    omega

lemma parse_cell_natRepr_large (u : Nat) (h1 : i32max < (u : Int)) (h2 : u < u64mod) :
    parse_cell (natRepr u) = .u64 u := by
  obtain ⟨c, tl, hds⟩ := natDigits_dest u
  have hmem : ∀ x ∈ c :: tl, x ∈ digits10 := by rw [← hds]; exact natDigits_mem u
  have hval : digitsVal (c :: tl) = u := by rw [← hds]; exact digitsVal_natDigits u
  have hsent := head_not_sentinel c
    (List.mem_cons_of_mem '-' (hmem c (List.mem_cons_self c tl))) tl
  unfold natRepr
  rw [hds]
  unfold parse_cell
  rw [if_neg hsent.1, if_neg hsent.2.1, if_neg hsent.2.2]
  rw [stoi_digits_large c tl hmem (by rw [hval]; exact h1)]
  unfold parse_cellU64
  rw [stoull_digits c tl hmem (by rw [hval]; exact h2)]
  dsimp only
  rw [if_pos (show (c :: tl).length = (String.mk (c :: tl)).length from rfl), hval]

end CSV
namespace CSV

lemma stoi_some_range (s : String) (v : Int) (p : Nat) (h : stoi s = some (v, p)) :
    i32min ≤ v ∧ v ≤ i32max := by
  simp only [stoi] at h
  split_ifs at h with h1 h2
  rw [Option.some.injEq, Prod.mk.injEq] at h
  obtain ⟨hv, _⟩ := h
  push_neg at h2
  omega

lemma stoull_some_lt (s : String) (u : Nat) (p : Nat) (h : stoull s = some (u, p)) :
    u < u64mod := by
  simp only [stoull] at h
  split_ifs at h with h1 h2 h3
  · rw [Option.some.injEq, Prod.mk.injEq] at h
    obtain ⟨hu, _⟩ := h
    rw [← hu]
    exact Nat.mod_lt _ (by decide)
  · rw [Option.some.injEq, Prod.mk.injEq] at h
    obtain ⟨hu, _⟩ := h
    omega

lemma if_if_some {α : Type} (A B : Prop) [Decidable A] [Decidable B] (x y : α)
    (h : (if A then none else if B then none else some x) = some y) : ¬B ∧ x = y := by
  split_ifs at h with hA hB
  exact ⟨hB, Option.some.inj h⟩

lemma stod_some_bound (s : String) (q : ℚ) (p : Nat) (h : stod s = some (q, p)) :
    qlt (qofInt ((2 ^ 1024 : Nat) : Int)) (qabs q) = false := by
  simp only [stod] at h
  obtain ⟨hB, hx⟩ := if_if_some _ _ _ _ h
  rw [Prod.mk.injEq] at hx
  obtain ⟨hq, _⟩ := hx
  rw [← hq]
  exact Bool.eq_false_iff.mpr hB

lemma parse_cellF64_f64_inv (s : String) (q : ℚ) (h : parse_cellF64 s = .f64 q) :
    ∃ p, stod s = some (q, p) := by
  unfold parse_cellF64 at h
  cases hs : stod s with
  | none => rw [hs] at h; exact Cell.noConfusion h
  | some qp =>
    rw [hs] at h
    obtain ⟨q0, p0⟩ := qp
    dsimp only at h
    split_ifs at h with hp
    injection h with h
    exact ⟨p0, by rw [h]⟩

lemma parse_cellF64_ne_i32 (s : String) (v : Int) : parse_cellF64 s ≠ .i32 v := by
  unfold parse_cellF64
  cases hs : stod s with
  | none => exact fun h => Cell.noConfusion h
  | some qp =>
    obtain ⟨q0, p0⟩ := qp
    dsimp only
    split_ifs with hp
    · exact fun h => Cell.noConfusion h
    · exact fun h => Cell.noConfusion h

lemma parse_cellF64_ne_u64 (s : String) (u : Nat) : parse_cellF64 s ≠ .u64 u := by
  unfold parse_cellF64
  cases hs : stod s with
  | none => exact fun h => Cell.noConfusion h
  | some qp =>
    obtain ⟨q0, p0⟩ := qp
    dsimp only
    split_ifs with hp
    · exact fun h => Cell.noConfusion h
    · exact fun h => Cell.noConfusion h

lemma parse_cellU64_ne_i32 (s : String) (v : Int) : parse_cellU64 s ≠ .i32 v := by
  unfold parse_cellU64
  cases hs : stoull s with
  | none => exact parse_cellF64_ne_i32 s v
  | some up =>
    obtain ⟨u0, p0⟩ := up
    dsimp only
    split_ifs with hp
    · exact fun h => Cell.noConfusion h
    · exact parse_cellF64_ne_i32 s v

lemma parse_cellU64_u64_inv (s : String) (u : Nat) (h : parse_cellU64 s = .u64 u) :
    ∃ p, stoull s = some (u, p) := by
  unfold parse_cellU64 at h
  cases hs : stoull s with
  | none => rw [hs] at h; exact absurd h (parse_cellF64_ne_u64 s u)
  | some up =>
    rw [hs] at h
    obtain ⟨u0, p0⟩ := up
    dsimp only at h
    split_ifs at h with hp
    · injection h with h
      exact ⟨p0, by rw [h]⟩
    · exact absurd h (parse_cellF64_ne_u64 s u)

lemma parse_cellU64_f64_inv (s : String) (q : ℚ) (h : parse_cellU64 s = .f64 q) :
    parse_cellF64 s = .f64 q := by
  unfold parse_cellU64 at h
  cases hs : stoull s with
  | none => rw [hs] at h; exact h
  | some up =>
    rw [hs] at h
    obtain ⟨u0, p0⟩ := up
    dsimp only at h
    split_ifs at h with hp
    exact h

lemma parse_cell_i32_inv (s : String) (v : Int) (h : parse_cell s = .i32 v) :
    i32min ≤ v ∧ v ≤ i32max := by
  unfold parse_cell at h
  split_ifs at h with h1 h2 h3
  cases hst : stoi s with
  | none => rw [hst] at h; exact absurd h (parse_cellU64_ne_i32 s v)
  | some vp =>
    rw [hst] at h
    obtain ⟨v0, p0⟩ := vp
    dsimp only at h
    split_ifs at h with hp
    · injection h with h
      subst h
      exact stoi_some_range s v0 p0 hst
    · exact absurd h (parse_cellU64_ne_i32 s v)

lemma parse_cell_u64_inv (s : String) (u : Nat) (h : parse_cell s = .u64 u) :
    u < u64mod := by
  unfold parse_cell at h
  split_ifs at h with h1 h2 h3
  have hu : parse_cellU64 s = .u64 u := by
    cases hst : stoi s with
    | none => rw [hst] at h; exact h
    | some vp =>
      rw [hst] at h
      obtain ⟨v0, p0⟩ := vp
      dsimp only at h
      split_ifs at h with hp
      exact h
  obtain ⟨p, hp⟩ := parse_cellU64_u64_inv s u hu
  exact stoull_some_lt s u p hp

lemma parse_cell_f64_inv (s : String) (q : ℚ) (h : parse_cell s = .f64 q) :
    qlt (qofInt ((2 ^ 1024 : Nat) : Int)) (qabs q) = false := by
  unfold parse_cell at h
  split_ifs at h with h1 h2 h3
  have hu : parse_cellU64 s = .f64 q := by
    cases hst : stoi s with
    | none => rw [hst] at h; exact h
    | some vp =>
      rw [hst] at h
      obtain ⟨v0, p0⟩ := vp
      dsimp only at h
      split_ifs at h with hp
      exact h
  obtain ⟨p, hp⟩ := parse_cellF64_f64_inv s q (parse_cellU64_f64_inv s q hu)
  exact stod_some_bound s q p hp

end CSV
namespace CSV

lemma qofInt_eq (n : Int) : qofInt n = (n : ℚ) := Rat.mkRat_one n

lemma qofNat_eq (n : Nat) : qofNat n = (n : ℚ) := by
  unfold qofNat
  rw [Rat.mkRat_one]
  norm_cast

lemma qmul_eq (a b : ℚ) : qmul a b = a * b := by
  unfold qmul
  conv_rhs => rw [← Rat.divInt_self a, ← Rat.divInt_self b]
  rw [Rat.divInt_mul_divInt _ _ (by exact_mod_cast a.den_nz) (by exact_mod_cast b.den_nz)]

lemma qadd_eq (a b : ℚ) : qadd a b = a + b := by
  unfold qadd
  conv_rhs => rw [← Rat.divInt_self a, ← Rat.divInt_self b]
  rw [Rat.divInt_add_divInt _ _ (by exact_mod_cast a.den_nz) (by exact_mod_cast b.den_nz)]

lemma rat_neg_eq (b : ℚ) : Rat.neg b = -b := rfl

lemma qsub_eq (a b : ℚ) : qsub a b = a - b := by
  unfold qsub
  rw [rat_neg_eq, qadd_eq, ← sub_eq_add_neg]

lemma qlt_iff (a b : ℚ) : qlt a b = true ↔ a < b := Iff.rfl

lemma mkRat_zero_one : mkRat 0 1 = (0 : ℚ) := by
  rw [Rat.mkRat_one]
  norm_num

lemma mkRat_half : mkRat 1 2 = (1 / 2 : ℚ) := by
  rw [Rat.mkRat_eq_divInt, Rat.divInt_eq_div]
  norm_num

lemma qabs_eq (q : ℚ) : qabs q = |q| := by
  unfold qabs
  rw [mkRat_zero_one]
  by_cases h : q < 0
  · rw [if_pos ((qlt_iff q 0).mpr h), rat_neg_eq, abs_of_neg h]
  · rw [if_neg (fun hc => h ((qlt_iff q 0).mp hc)), abs_of_nonneg (not_lt.mp h)]

lemma rat_floor_eq (q : ℚ) : Rat.floor q = ⌊q⌋ := by
  rw [Rat.floor_def', Rat.floor_def]

lemma roundHalfEven_spec (x : ℚ) : |((roundHalfEven x : Int) : ℚ) - x| ≤ 1 / 2 := by
  simp only [roundHalfEven]
  rw [rat_floor_eq, qofInt_eq, qsub_eq, mkRat_half]
  have h0 : (0 : ℚ) ≤ x - ⌊x⌋ := by
    rw [sub_nonneg]
    exact Int.floor_le x
  have h1 : x - ⌊x⌋ < 1 := by
    have := Int.lt_floor_add_one x
    linarith
  split_ifs with hc1 hc2 hc3
  · have h2 : x - ⌊x⌋ < 1 / 2 := (qlt_iff _ _).mp hc1
    rw [abs_le]
    constructor <;> linarith
  · have h2 : (1 : ℚ) / 2 < x - ⌊x⌋ := (qlt_iff _ _).mp hc2
    rw [abs_le]
    push_cast
    constructor <;> linarith
  · have h2 : ¬(x - ⌊x⌋ < 1 / 2) := fun hh => hc1 ((qlt_iff _ _).mpr hh)
    have h3 : ¬((1 : ℚ) / 2 < x - ⌊x⌋) := fun hh => hc2 ((qlt_iff _ _).mpr hh)
    rw [not_lt] at h2 h3
    rw [abs_le]
    constructor <;> linarith
  · have h2 : ¬(x - ⌊x⌋ < 1 / 2) := fun hh => hc1 ((qlt_iff _ _).mpr hh)
    have h3 : ¬((1 : ℚ) / 2 < x - ⌊x⌋) := fun hh => hc2 ((qlt_iff _ _).mpr hh)
    rw [not_lt] at h2 h3
    rw [abs_le]
    push_cast
    constructor <;> linarith

lemma roundHalfEven_le (x : ℚ) (B : Int) (h : x ≤ (B : ℚ)) : roundHalfEven x ≤ B := by
  simp only [roundHalfEven]
  rw [rat_floor_eq, qofInt_eq, qsub_eq, mkRat_half]
  have hfB : ⌊x⌋ ≤ B := by
    calc ⌊x⌋ ≤ ⌊(B : ℚ)⌋ := Int.floor_le_floor h
      _ = B := Int.floor_intCast B
  have hstep : (1 : ℚ) / 2 ≤ x - ⌊x⌋ → ⌊x⌋ + 1 ≤ B := by
    intro hh
    have hfx : ((⌊x⌋ : Int) : ℚ) + 1 / 2 ≤ x := by linarith
    have hlt : ((⌊x⌋ : Int) : ℚ) < (B : ℚ) := by linarith
    have : ⌊x⌋ < B := by exact_mod_cast hlt
    omega
  split_ifs with hc1 hc2 hc3
  · exact hfB
  · exact hstep (le_of_lt ((qlt_iff _ _).mp hc2))
  · exact hfB
  · have h2 : ¬(x - ⌊x⌋ < 1 / 2) := fun hh => hc1 ((qlt_iff _ _).mpr hh)
    rw [not_lt] at h2
    exact hstep h2

lemma roundHalfEven_nonneg (x : ℚ) (h : 0 ≤ x) : 0 ≤ roundHalfEven x := by
  simp only [roundHalfEven]
  rw [rat_floor_eq, qofInt_eq, qsub_eq, mkRat_half]
  have hf : 0 ≤ ⌊x⌋ := Int.floor_nonneg.mpr h
  split_ifs <;> omega

end CSV
namespace CSV

lemma natDigitsAux_len_le : ∀ (k fuel n : Nat) (acc : List Char), n < 10 ^ (k + 1) →
    (natDigitsAux fuel n acc).length ≤ (k + 1) + acc.length := by
  intro k
  induction k with
  | zero =>
    intro fuel n acc hn
    have hn10 : n < 10 := by simpa using hn
    cases fuel with
    | zero =>
      simp only [natDigitsAux, List.length_cons]
      omega
    | succ f =>
      simp only [natDigitsAux, hn10, if_true, reduceIte, List.length_cons]
      omega
  | succ k ih =>
    intro fuel n acc hn
    cases fuel with
    | zero =>
      simp only [natDigitsAux, List.length_cons]
      omega
    | succ f =>
      by_cases h10 : n < 10
      · simp only [natDigitsAux, h10, if_true, reduceIte, List.length_cons]
        omega
      · simp only [natDigitsAux, h10, if_false, reduceIte]
        have hdiv : n / 10 < 10 ^ (k + 1) := by
          apply Nat.div_lt_of_lt_mul
          have hp : (10 : Nat) ^ (k + 1 + 1) = 10 ^ (k + 1) * 10 := pow_succ 10 (k + 1)
          omega
        have hrec := ih f (n / 10) (digitChar (n % 10) :: acc) hdiv
        simp only [List.length_cons] at hrec
        omega

lemma natDigits_len_le (m k : Nat) (hk : 1 ≤ k) (h : m < 10 ^ k) :
    (natDigits m).length ≤ k := by
  obtain ⟨k0, rfl⟩ : ∃ k0, k = k0 + 1 := ⟨k - 1, by omega⟩
  have := natDigitsAux_len_le k0 m m [] h
  simpa using this

lemma foldl_digits_zero (k : Nat) :
    (List.replicate k '0').foldl (fun a c => a * 10 + (c.toNat - 48)) 0 = 0 := by
  induction k with
  | zero => rfl
  | succ k2 ih =>
    rw [List.replicate_succ, List.foldl_cons]
    exact ih

lemma digitsVal_padZeros10 (ds : List Char) :
    digitsVal (padZeros10 ds) = digitsVal ds := by
  unfold padZeros10 digitsVal
  rw [List.foldl_append, foldl_digits_zero]

lemma padZeros10_length (ds : List Char) (h : ds.length ≤ 10) :
    (padZeros10 ds).length = 10 := by
  unfold padZeros10
  simp only [List.length_append, List.length_replicate]
  omega

lemma padZeros10_mem (ds : List Char) (h : ∀ c ∈ ds, c ∈ digits10) :
    ∀ c ∈ padZeros10 ds, c ∈ digits10 := by
  intro c hc
  unfold padZeros10 at hc
  rcases List.mem_append.mp hc with hc | hc
  · have := List.eq_of_mem_replicate hc
    subst this
    decide
  · exact h c hc

lemma stod_dot_pos (c : Char) (itl fds : List Char)
    (hi : ∀ x ∈ c :: itl, x ∈ digits10) (hf : ∀ x ∈ fds, x ∈ digits10)
    (hbound : qlt (qofInt ((2 ^ 1024 : Nat) : Int))
      (qabs (Rat.divInt ((digitsVal (c :: itl) * 10 ^ fds.length + digitsVal fds : Nat) : Int)
        ((10 ^ fds.length : Nat) : Int))) = false) :
    stod (String.mk (c :: (itl ++ '.' :: fds)))
      = some (Rat.divInt
          ((digitsVal (c :: itl) * 10 ^ fds.length + digitsVal fds : Nat) : Int)
          ((10 ^ fds.length : Nat) : Int),
        (c :: itl).length + 1 + fds.length) := by
  have hc := hi c (List.mem_cons_self c itl)
  have htd : takeDigits (c :: (itl ++ '.' :: fds)) = (c :: itl, '.' :: fds) := by
    have := takeDigits_append (c :: itl) hi '.' (by decide) fds
    simpa using this
  simp only [stod, data_mk, List.cons_append, skipWs_digit c hc _, takeSign_digit c hc _,
    htd, takeDigits_all fds hf, List.isEmpty_cons, Bool.false_eq_true, false_and, if_false,
    reduceIte, le_refl, if_true, Int.toNat_zero, pow_zero, Nat.cast_one, mul_one, one_mul,
    Nat.add_zero, Nat.zero_add, zero_add, add_zero, List.length_cons]
  rw [if_neg (Bool.eq_false_iff.mp hbound)]

lemma stod_dot_neg (c : Char) (itl fds : List Char)
    (hi : ∀ x ∈ c :: itl, x ∈ digits10) (hf : ∀ x ∈ fds, x ∈ digits10)
    (hbound : qlt (qofInt ((2 ^ 1024 : Nat) : Int))
      (qabs (Rat.divInt (-((digitsVal (c :: itl) * 10 ^ fds.length + digitsVal fds : Nat) : Int))
        ((10 ^ fds.length : Nat) : Int))) = false) :
    stod (String.mk ('-' :: c :: (itl ++ '.' :: fds)))
      = some (Rat.divInt
          (-((digitsVal (c :: itl) * 10 ^ fds.length + digitsVal fds : Nat) : Int))
          ((10 ^ fds.length : Nat) : Int),
        1 + (c :: itl).length + 1 + fds.length) := by
  have htd : takeDigits (c :: (itl ++ '.' :: fds)) = (c :: itl, '.' :: fds) := by
    have := takeDigits_append (c :: itl) hi '.' (by decide) fds
    simpa using this
  simp only [stod, data_mk, List.cons_append, skipWs_dash, takeSign_dash,
    htd, takeDigits_all fds hf, List.isEmpty_cons, Bool.false_eq_true, false_and, if_false,
    reduceIte, le_refl, if_true, Int.toNat_zero, pow_zero, Nat.cast_one, mul_one, one_mul,
    neg_one_mul, Nat.add_zero, Nat.zero_add, zero_add, add_zero, List.length_cons]
  rw [if_neg (Bool.eq_false_iff.mp hbound)]

end CSV
namespace CSV

lemma parse_cell_to_U64 (s : String)
    (hs0 : ¬(s = "" ∨ s = "NA" ∨ s = "NaN" ∨ s = "#N/A"))
    (ht : s ≠ "true") (hfa : s ≠ "false")
    (hpos : ∀ v p, stoi s = some (v, p) → p ≠ s.length) :
    parse_cell s = parse_cellU64 s := by
  unfold parse_cell
  rw [if_neg hs0, if_neg ht, if_neg hfa]
  cases hst : stoi s with
  | none => rfl
  | some vp =>
    obtain ⟨v, p⟩ := vp
    dsimp only
    rw [if_neg (hpos v p hst)]

lemma parse_cellU64_to_F64 (s : String)
    (hpos : ∀ u p, stoull s = some (u, p) → p ≠ s.length) :
    parse_cellU64 s = parse_cellF64 s := by
  unfold parse_cellU64
  cases hst : stoull s with
  | none => rfl
  | some up =>
    obtain ⟨u, p⟩ := up
    dsimp only
    rw [if_neg (hpos u p hst)]

lemma stoi_dot_pos_consumed (c : Char) (itl fds : List Char)
    (hi : ∀ x ∈ c :: itl, x ∈ digits10) :
    ∀ v p, stoi (String.mk (c :: (itl ++ '.' :: fds))) = some (v, p) →
      p = (c :: itl).length := by
  intro v p h
  have hc := hi c (List.mem_cons_self c itl)
  have htd : takeDigits (c :: (itl ++ '.' :: fds)) = (c :: itl, '.' :: fds) := by
    have := takeDigits_append (c :: itl) hi '.' (by decide) fds
    simpa using this
  simp only [stoi, data_mk, skipWs_digit c hc _, takeSign_digit c hc _,
    htd, List.isEmpty_cons, Bool.false_eq_true, if_false, reduceIte,
    Nat.zero_add, zero_add, List.length_cons] at h
  split_ifs at h with hx
  rw [Option.some.injEq, Prod.mk.injEq] at h
  obtain ⟨_, hp⟩ := h
  rw [List.length_cons]
  omega

lemma stoull_dot_pos_consumed (c : Char) (itl fds : List Char)
    (hi : ∀ x ∈ c :: itl, x ∈ digits10) :
    ∀ u p, stoull (String.mk (c :: (itl ++ '.' :: fds))) = some (u, p) →
      p = (c :: itl).length := by
  intro u p h
  have hc := hi c (List.mem_cons_self c itl)
  have htd : takeDigits (c :: (itl ++ '.' :: fds)) = (c :: itl, '.' :: fds) := by
    have := takeDigits_append (c :: itl) hi '.' (by decide) fds
    simpa using this
  simp only [stoull, data_mk, skipWs_digit c hc _, takeSign_digit c hc _,
    htd, List.isEmpty_cons, Bool.false_eq_true, if_false, reduceIte,
    Nat.zero_add, zero_add, List.length_cons] at h
  split_ifs at h with hx hy <;>
    (rw [Option.some.injEq, Prod.mk.injEq] at h
     obtain ⟨_, hp⟩ := h
     rw [List.length_cons]
     omega)

lemma stoi_dot_neg_consumed (c : Char) (itl fds : List Char)
    (hi : ∀ x ∈ c :: itl, x ∈ digits10) :
    ∀ v p, stoi (String.mk ('-' :: c :: (itl ++ '.' :: fds))) = some (v, p) →
      p = (c :: itl).length + 1 := by
  intro v p h
  have htd : takeDigits (c :: (itl ++ '.' :: fds)) = (c :: itl, '.' :: fds) := by
    have := takeDigits_append (c :: itl) hi '.' (by decide) fds
    simpa using this
  simp only [stoi, data_mk, skipWs_dash, takeSign_dash,
    htd, List.isEmpty_cons, Bool.false_eq_true, if_false, reduceIte,
    Nat.zero_add, zero_add, List.length_cons] at h
  split_ifs at h with hx
  rw [Option.some.injEq, Prod.mk.injEq] at h
  obtain ⟨_, hp⟩ := h
  rw [List.length_cons]
  omega

lemma stoull_dot_neg_consumed (c : Char) (itl fds : List Char)
    (hi : ∀ x ∈ c :: itl, x ∈ digits10) :
    ∀ u p, stoull (String.mk ('-' :: c :: (itl ++ '.' :: fds))) = some (u, p) →
      p = (c :: itl).length + 1 := by
  intro u p h
  have htd : takeDigits (c :: (itl ++ '.' :: fds)) = (c :: itl, '.' :: fds) := by
    have := takeDigits_append (c :: itl) hi '.' (by decide) fds
    simpa using this
  simp only [stoull, data_mk, skipWs_dash, takeSign_dash,
    htd, List.isEmpty_cons, Bool.false_eq_true, if_false, reduceIte,
    Nat.zero_add, zero_add, List.length_cons] at h
  split_ifs at h with hx hy <;>
    (rw [Option.some.injEq, Prod.mk.injEq] at h
     obtain ⟨_, hp⟩ := h
     rw [List.length_cons]
     omega)

lemma parse_cell_dot_pos (c : Char) (itl fds : List Char)
    (hi : ∀ x ∈ c :: itl, x ∈ digits10) (hf : ∀ x ∈ fds, x ∈ digits10)
    (hbound : qlt (qofInt ((2 ^ 1024 : Nat) : Int))
      (qabs (Rat.divInt ((digitsVal (c :: itl) * 10 ^ fds.length + digitsVal fds : Nat) : Int)
        ((10 ^ fds.length : Nat) : Int))) = false) :
    parse_cell (String.mk (c :: (itl ++ '.' :: fds)))
      = .f64 (Rat.divInt
          ((digitsVal (c :: itl) * 10 ^ fds.length + digitsVal fds : Nat) : Int)
          ((10 ^ fds.length : Nat) : Int)) := by
  have hc := hi c (List.mem_cons_self c itl)
  have hsent := head_not_sentinel c (List.mem_cons_of_mem '-' hc) (itl ++ '.' :: fds)
  have hlen : (String.mk (c :: (itl ++ '.' :: fds))).length
      = (c :: itl).length + 1 + fds.length := by
    show (c :: (itl ++ '.' :: fds)).length = (c :: itl).length + 1 + fds.length
    simp only [List.length_cons, List.length_append]
    omega
  rw [parse_cell_to_U64 _ hsent.1 hsent.2.1 hsent.2.2
    (fun v p hp => by rw [stoi_dot_pos_consumed c itl fds hi v p hp, hlen, List.length_cons]; omega)]
  rw [parse_cellU64_to_F64 _
    (fun u p hp => by rw [stoull_dot_pos_consumed c itl fds hi u p hp, hlen, List.length_cons]; omega)]
  unfold parse_cellF64
  rw [stod_dot_pos c itl fds hi hf hbound]
  dsimp only
  rw [if_pos (by rw [hlen])]

lemma parse_cell_dot_neg (c : Char) (itl fds : List Char)
    (hi : ∀ x ∈ c :: itl, x ∈ digits10) (hf : ∀ x ∈ fds, x ∈ digits10)
    (hbound : qlt (qofInt ((2 ^ 1024 : Nat) : Int))
      (qabs (Rat.divInt (-((digitsVal (c :: itl) * 10 ^ fds.length + digitsVal fds : Nat) : Int))
        ((10 ^ fds.length : Nat) : Int))) = false) :
    parse_cell (String.mk ('-' :: c :: (itl ++ '.' :: fds)))
      = .f64 (Rat.divInt
          (-((digitsVal (c :: itl) * 10 ^ fds.length + digitsVal fds : Nat) : Int))
          ((10 ^ fds.length : Nat) : Int)) := by
  have hsent := head_not_sentinel '-' (List.mem_cons_self _ _) (c :: (itl ++ '.' :: fds))
  have hlen : (String.mk ('-' :: c :: (itl ++ '.' :: fds))).length
      = 1 + (c :: itl).length + 1 + fds.length := by
    show ('-' :: c :: (itl ++ '.' :: fds)).length = 1 + (c :: itl).length + 1 + fds.length
    simp only [List.length_cons, List.length_append]
    omega
  rw [parse_cell_to_U64 _ hsent.1 hsent.2.1 hsent.2.2
    (fun v p hp => by
      rw [stoi_dot_neg_consumed c itl fds hi v p hp, hlen, List.length_cons]; omega)]
  rw [parse_cellU64_to_F64 _
    (fun u p hp => by
      rw [stoull_dot_neg_consumed c itl fds hi u p hp, hlen, List.length_cons]; omega)]
  unfold parse_cellF64
  rw [stod_dot_neg c itl fds hi hf hbound]
  dsimp only
  rw [if_pos (by rw [hlen])]

end CSV
namespace CSV

lemma qlt_false_iff (a b : ℚ) : qlt a b = false ↔ ¬ a < b := by
  rw [← qlt_iff a b]
  cases qlt a b <;> simp

lemma round_div_bound (y : ℚ) (n : Nat)
    (hn : |(n : ℚ) - y * ((10 ^ 10 : Nat) : ℚ)| ≤ 1 / 2) :
    |(n : ℚ) / ((10 ^ 10 : Nat) : ℚ) - y| ≤ 1 / 10 ^ 9 := by
  have hE : (0 : ℚ) < ((10 ^ 10 : Nat) : ℚ) := by norm_num
  have heq : (n : ℚ) / ((10 ^ 10 : Nat) : ℚ) - y
      = ((n : ℚ) - y * ((10 ^ 10 : Nat) : ℚ)) / ((10 ^ 10 : Nat) : ℚ) := by
    field_simp
    ring
  rw [heq, abs_div, abs_of_pos hE, div_le_iff hE]
  have hc : (1 : ℚ) / 10 ^ 9 * ((10 ^ 10 : Nat) : ℚ) = 10 := by
    push_cast
    norm_num
  linarith

lemma parse_cell_fixed10 (q : ℚ) (hb : |q| ≤ ((2 ^ 1024 : Nat) : ℚ)) :
    ∃ q2 : ℚ, parse_cell (fixed10 q) = .f64 q2 ∧ |q2 - q| ≤ 1 / 10 ^ 9 := by
  have hE : (0 : ℚ) < ((10 ^ 10 : Nat) : ℚ) := by norm_num
  have harg : qmul (qabs q) (qofNat (10 ^ 10)) = |q| * ((10 ^ 10 : Nat) : ℚ) := by
    rw [qmul_eq, qabs_eq, qofNat_eq]
  have hx0 : 0 ≤ |q| * ((10 ^ 10 : Nat) : ℚ) := mul_nonneg (abs_nonneg q) (le_of_lt hE)
  have hrnn : 0 ≤ roundHalfEven (|q| * ((10 ^ 10 : Nat) : ℚ)) :=
    roundHalfEven_nonneg _ hx0
  have hn : (((roundHalfEven (|q| * ((10 ^ 10 : Nat) : ℚ))).toNat : Nat) : Int)
      = roundHalfEven (|q| * ((10 ^ 10 : Nat) : ℚ)) := Int.toNat_of_nonneg hrnn
  set n : Nat := (roundHalfEven (|q| * ((10 ^ 10 : Nat) : ℚ))).toNat with hndef
  have hround := roundHalfEven_spec (|q| * ((10 ^ 10 : Nat) : ℚ))
  have hkey : |(n : ℚ) - |q| * ((10 ^ 10 : Nat) : ℚ)| ≤ 1 / 2 := by
    have hcast : ((n : Nat) : ℚ)
        = ((roundHalfEven (|q| * ((10 ^ 10 : Nat) : ℚ)) : Int) : ℚ) := by
      rw [← hn]
      push_cast
      ring
    rw [hcast]
    exact hround
  have hle : roundHalfEven (|q| * ((10 ^ 10 : Nat) : ℚ))
      ≤ ((2 ^ 1024 * 10 ^ 10 : Nat) : Int) := by
    apply roundHalfEven_le
    push_cast
    have h2 : (0 : ℚ) ≤ (10 : ℚ) ^ 10 := by norm_num
    have hb2 : |q| ≤ (2 : ℚ) ^ 1024 := by
      calc |q| ≤ ((2 ^ 1024 : Nat) : ℚ) := hb
        _ = (2 : ℚ) ^ 1024 := by push_cast; ring
    nlinarith [abs_nonneg q]
  have hnle : (n : ℚ) ≤ ((2 ^ 1024 : Nat) : ℚ) * ((10 ^ 10 : Nat) : ℚ) := by
    have hint : (n : Int) ≤ ((2 ^ 1024 * 10 ^ 10 : Nat) : Int) := by rw [hn]; exact hle
    have hq : ((n : Int) : ℚ) ≤ (((2 ^ 1024 * 10 ^ 10 : Nat) : Int) : ℚ) := by
      exact_mod_cast hint
    push_cast at hq ⊢
    linarith
  have hmem10 : ∀ y ∈ padZeros10 (natDigits (n % 10 ^ 10)), y ∈ digits10 :=
    padZeros10_mem _ (natDigits_mem _)
  have hpadlen : (padZeros10 (natDigits (n % 10 ^ 10))).length = 10 :=
    padZeros10_length _ (natDigits_len_le _ 10 (by norm_num)
      (Nat.mod_lt _ (by norm_num)))
  obtain ⟨c, itl, hds⟩ := natDigits_dest (n / 10 ^ 10)
  have hi : ∀ y ∈ c :: itl, y ∈ digits10 := by rw [← hds]; exact natDigits_mem _
  have hvali : digitsVal (c :: itl) = n / 10 ^ 10 := by
    rw [← hds]; exact digitsVal_natDigits _
  have hvalf : digitsVal (padZeros10 (natDigits (n % 10 ^ 10))) = n % 10 ^ 10 := by
    rw [digitsVal_padZeros10, digitsVal_natDigits]
  have hmant : digitsVal (c :: itl) * 10 ^ (padZeros10 (natDigits (n % 10 ^ 10))).length
      + digitsVal (padZeros10 (natDigits (n % 10 ^ 10))) = n := by
    rw [hpadlen, hvali, hvalf, Nat.mul_comm (n / 10 ^ 10) (10 ^ 10)]
    exact Nat.div_add_mod n (10 ^ 10)
  have hvq : (Rat.divInt ((n : Nat) : Int) ((10 ^ 10 : Nat) : Int))
      = (n : ℚ) / ((10 ^ 10 : Nat) : ℚ) := by
    rw [Rat.divInt_eq_div]
    push_cast
    ring
  simp only [fixed10, harg, ← hndef]
  by_cases hneg : q < 0
  · rw [mkRat_zero_one, if_pos ((qlt_iff q 0).mpr hneg)]
    rw [hds]
    have hb2 : qlt (qofInt ((2 ^ 1024 : Nat) : Int))
        (qabs (Rat.divInt (-((n : Nat) : Int)) ((10 ^ 10 : Nat) : Int))) = false := by
      rw [qlt_false_iff, qabs_eq, qofInt_eq]
      apply not_lt.mpr
      have hneg1 : Rat.divInt (-((n : Nat) : Int)) ((10 ^ 10 : Nat) : Int)
          = -((n : ℚ) / ((10 ^ 10 : Nat) : ℚ)) := by
        rw [← Rat.neg_divInt, hvq]
      rw [hneg1, abs_neg, abs_div, abs_of_nonneg (by positivity), abs_of_pos hE]
      rw [div_le_iff hE]
      push_cast at hnle ⊢
      linarith
    have hbound : qlt (qofInt ((2 ^ 1024 : Nat) : Int))
        (qabs (Rat.divInt
          (-((digitsVal (c :: itl) * 10 ^ (padZeros10 (natDigits (n % 10 ^ 10))).length
              + digitsVal (padZeros10 (natDigits (n % 10 ^ 10))) : Nat) : Int))
          ((10 ^ (padZeros10 (natDigits (n % 10 ^ 10))).length : Nat) : Int))) = false := by
      rw [hmant, hpadlen]
      exact hb2
    have hpc := parse_cell_dot_neg c itl (padZeros10 (natDigits (n % 10 ^ 10))) hi hmem10 hbound
    simp only [List.cons_append, List.nil_append]
    rw [hpc, hmant, hpadlen]
    refine ⟨_, rfl, ?_⟩
    have hq2 : Rat.divInt (-((n : Nat) : Int)) ((10 ^ 10 : Nat) : Int)
        = -((n : ℚ) / ((10 ^ 10 : Nat) : ℚ)) := by
      rw [← Rat.neg_divInt, hvq]
    rw [hq2]
    have habs : |(-((n : ℚ) / ((10 ^ 10 : Nat) : ℚ))) - q|
        = |(n : ℚ) / ((10 ^ 10 : Nat) : ℚ) - abs q| := by
      rw [abs_of_neg hneg]
      have hh : (-((n : ℚ) / ((10 ^ 10 : Nat) : ℚ))) - q
          = -((n : ℚ) / ((10 ^ 10 : Nat) : ℚ) - -q) := by ring
      rw [hh, abs_neg]
    rw [habs]
    exact round_div_bound (|q|) n hkey
  · rw [mkRat_zero_one, if_neg (fun hc => hneg ((qlt_iff q 0).mp hc))]
    rw [hds]
    have hb2 : qlt (qofInt ((2 ^ 1024 : Nat) : Int))
        (qabs (Rat.divInt ((n : Nat) : Int) ((10 ^ 10 : Nat) : Int))) = false := by
      rw [qlt_false_iff, qabs_eq, qofInt_eq]
      apply not_lt.mpr
      rw [hvq, abs_div, abs_of_nonneg (by positivity), abs_of_pos hE]
      rw [div_le_iff hE]
      push_cast at hnle ⊢
      linarith
    have hbound : qlt (qofInt ((2 ^ 1024 : Nat) : Int))
        (qabs (Rat.divInt
          ((digitsVal (c :: itl) * 10 ^ (padZeros10 (natDigits (n % 10 ^ 10))).length
              + digitsVal (padZeros10 (natDigits (n % 10 ^ 10))) : Nat) : Int)
          ((10 ^ (padZeros10 (natDigits (n % 10 ^ 10))).length : Nat) : Int))) = false := by
      rw [hmant, hpadlen]
      exact hb2
    have hpc := parse_cell_dot_pos c itl (padZeros10 (natDigits (n % 10 ^ 10))) hi hmem10 hbound
    simp only [List.cons_append, List.nil_append]
    rw [hpc, hmant, hpadlen]
    refine ⟨_, rfl, ?_⟩
    rw [hvq]
    have habs : |(n : ℚ) / ((10 ^ 10 : Nat) : ℚ) - q|
        = |(n : ℚ) / ((10 ^ 10 : Nat) : ℚ) - abs q| := by
      rw [abs_of_nonneg (not_lt.mp hneg)]
    rw [habs]
    exact round_div_bound (|q|) n hkey

end CSV
namespace CSV

lemma doubleToI32_int (q : ℚ) (hden : q.den = 1) (h1 : i32min ≤ q.num) (h2 : q.num ≤ i32max) :
    doubleToI32x86 q = q.num := by
  simp only [doubleToI32x86, ratTrunc, hden, Nat.cast_one, Int.tdiv_one]
  rw [if_neg (by push_neg; exact ⟨h1, h2⟩)]

lemma f64_bound_q (q : ℚ) (h : qlt (qofInt ((2 ^ 1024 : Nat) : Int)) (qabs q) = false) :
    |q| ≤ ((2 ^ 1024 : Nat) : ℚ) := by
  rw [qlt_false_iff, qabs_eq, qofInt_eq] at h
  have h2 := not_lt.mp h
  push_cast at h2 ⊢
  linarith

/-- C3 (amended): for every cell produced by parse_cell, reparsing its cell_to_string
    image gives back: the same I32 (parse_cell only produces in-range I32); the same
    Bool; the same U64 when the value exceeds INT_MAX (smaller U64 values, which
    parse_cell produces only through stoull's negative wrap-around, reparse as I32);
    for an integral F64 whose value fits in int, the I32 of that value; and for a
    non-integral F64, an F64 within 1e-9 of the original (the printing rounds to ten
    fixed fractional digits, so the error is at most 5e-11).  The original claim,
    with no INT_MAX restriction on U64 and no int-range restriction on integral F64,
    is refuted by C3_original_round_trip_fails. -/
theorem C3_parse_format_round_trip (c : Cell) (s0 : String)
    (hprod : parse_cell s0 = c) :
    (∀ v, c = .i32 v → parse_cell (cell_to_string c) = .i32 v) ∧
    (∀ b, c = .bool b → parse_cell (cell_to_string c) = .bool b) ∧
    (∀ u, c = .u64 u → i32max < (u : Int) → parse_cell (cell_to_string c) = .u64 u) ∧
    (∀ q, c = .f64 q → q.den = 1 → i32min ≤ q.num → q.num ≤ i32max →
      parse_cell (cell_to_string c) = .i32 q.num) ∧
    (∀ q, c = .f64 q → q.den ≠ 1 →
      ∃ q2, parse_cell (cell_to_string c) = .f64 q2 ∧ |q2 - q| ≤ 1 / 10 ^ 9) := by
  refine ⟨?_, ?_, ?_, ?_, ?_⟩
  · rintro v rfl
    obtain ⟨h1, h2⟩ := parse_cell_i32_inv s0 v hprod
    show parse_cell (intRepr v) = .i32 v
    exact parse_cell_intRepr v h1 h2
  · rintro b rfl
    cases b <;> decide
  · rintro u rfl hgt
    have hlt := parse_cell_u64_inv s0 u hprod
    show parse_cell (natRepr u) = .u64 u
    exact parse_cell_natRepr_large u hgt hlt
  · rintro q rfl hden h1 h2
    show parse_cell (cell_to_string (.f64 q)) = .i32 q.num
    unfold cell_to_string
    dsimp only
    rw [if_pos hden, doubleToI32_int q hden h1 h2]
    exact parse_cell_intRepr q.num h1 h2
  · rintro q rfl hden
    show ∃ q2, parse_cell (cell_to_string (.f64 q)) = .f64 q2 ∧ |q2 - q| ≤ 1 / 10 ^ 9
    unfold cell_to_string
    dsimp only
    rw [if_neg hden]
    exact parse_cell_fixed10 q (f64_bound_q q (parse_cell_f64_inv s0 q hprod))

/-- C3 witness: the cell F64 5/2 produced by parsing "2.5" reparses from its printed
    form to an F64 within 1e-9 of 5/2. -/
theorem C3_witness :
    ∃ q2, parse_cell (cell_to_string (Cell.f64 (mkRat 5 2))) = .f64 q2 ∧
      |q2 - mkRat 5 2| ≤ 1 / 10 ^ 9 :=
  (C3_parse_format_round_trip (Cell.f64 (mkRat 5 2)) "2.5" (by decide)).2.2.2.2
    (mkRat 5 2) rfl (by decide)

/-- C3 counterexample to the original claim: parse_cell turns the text form of
    -ULLONG_MAX into U64 1 through stoull's negative wrap, which reparses as I32 1,
    not an equivalent U64; and the integral double 3000000000 (produced from
    "3000000000.0") is printed through an int cast that is undefined behaviour out of
    int range and yields INT_MIN on x86-64, so it reparses as I32 -2147483648, not
    I32 3000000000. -/
theorem C3_original_round_trip_fails :
    parse_cell "-18446744073709551615" = Cell.u64 1 ∧
    parse_cell (cell_to_string (Cell.u64 1)) = Cell.i32 1 ∧
    parse_cell "3000000000.0" = Cell.f64 (mkRat 3000000000 1) ∧
    (mkRat 3000000000 1).den = 1 ∧
    parse_cell (cell_to_string (Cell.f64 (mkRat 3000000000 1))) = Cell.i32 (-2147483648) :=
  ⟨by decide, by decide, by decide, by decide, by decide⟩

end CSV
